import Mathlib

/-!
Verification of SOFA's schema-to-route compiler and request pipeline
(src/router.ts and src/open-api/*), via a shallow embedding in Lean 4.

JSON values are modelled by the inductive `Json`; JavaScript objects are
ordered association lists (insertion order), matching JS object key order.
GraphQL types are modelled by `GType` (non-null / list wrappers over named
type references) together with a schema environment `GSchema` mapping type
names to their definitions, so arbitrary — possibly cyclic — type graphs are
expressible while type *references* stay finite, exactly as in graphql-js.
-/

/-- JSON values. Objects keep key insertion order, as JavaScript objects do.
Numbers are modelled as integers: every number this code manufactures
(HTTP status codes, int32 fragments) is integral; float-valued example
coercion (`Number(raw)` on a non-integral string) is outside the model. -/
inductive Json where
  | null : Json
  | bool : Bool → Json
  | num : Int → Json
  | str : String → Json
  | arr : List Json → Json
  | obj : List (String × Json) → Json
deriving Repr

/-- Key lookup in a String-keyed association list (first match wins),
mirroring JavaScript property access on plain objects. -/
def lookupKV {β : Type} : List (String × β) → String → Option β
  | [], _ => none
  | (k, v) :: rest, key => if k = key then some v else lookupKV rest key

/-- Key assignment in an association list: an existing key is overwritten in
place (its position kept), a fresh key is appended — exactly the semantics of
`obj[key] = value` / `Object.assign` / object-spread on JavaScript objects. -/
def assignKV {β : Type} (l : List (String × β)) (key : String) (v : β) :
    List (String × β) :=
  if (lookupKV l key).isSome then
    l.map (fun p => if p.1 = key then (key, v) else p)
  else l ++ [(key, v)]

/-- Property lookup on a JSON object (`none` on non-objects). -/
def Json.lookup : Json → String → Option Json
  | .obj kvs, key => lookupKV kvs key
  | _, _ => none

/-- Keys of a JSON object, in order. -/
def Json.objKeys : Json → List String
  | .obj kvs => kvs.map Prod.fst
  | _ => []

/-- Elements of a JSON array. -/
def Json.arrItems : Json → List Json
  | .arr items => items
  | _ => []

/-- Property assignment on a JSON object (non-objects are returned unchanged;
the code only ever assigns properties of schema-fragment objects). -/
def Json.setKey : Json → String → Json → Json
  | .obj kvs, key, v => .obj (assignKV kvs key v)
  | j, _, _ => j

/-- GraphQL type references: a named type, or a non-null / list wrapper.
Cycles in the type graph go through *names*, resolved in a `GSchema`;
a reference value itself is always finite, as in graphql-js. -/
inductive GType where
  | named : String → GType
  | nonNull : GType → GType
  | list : GType → GType
deriving Repr, DecidableEq

/-- An argument of a field (name, declared type, optional description). -/
structure GArg where
  name : String
  type : GType
  description : Option String
deriving Repr, DecidableEq

/-- A field of an object or input-object type. Input-object fields have no
arguments (`args = []`). -/
structure GField where
  name : String
  type : GType
  description : Option String
  args : List GArg
deriving Repr, DecidableEq

/-- The structural part of a named type definition. `scalarT` carries the
optional `extensions.jsonSchema` override found on custom scalar types. -/
inductive TypeBody where
  | objectT : List GField → TypeBody
  | inputObjectT : List GField → TypeBody
  | enumT : List String → TypeBody
  | scalarT : Option Json → TypeBody
deriving Repr

/-- A named type definition: optional description plus its structure. -/
structure TypeDef where
  description : Option String
  body : TypeBody
deriving Repr

/-- A schema is its type map: named type definitions in declaration order,
names unique (graphql-js guarantees unique type names). -/
def GSchema := List (String × TypeDef)

/-- Look a type up by name in the schema's type map. -/
def lookupType (schema : GSchema) (name : String) : Option TypeDef :=
  lookupKV schema name

/-- Introspection types are exactly the built-in types whose names start with
`__` (graphql-js reserves the `__` prefix for them, so the name test coincides
with graphql's identity-based `isIntrospectionType`). -/
def isIntrospectionName (name : String) : Bool :=
  "__".toList.isPrefixOf name.toList

/-- Whether a type reference is non-null-wrapped (`isNonNullType`). -/
def isNonNullT : GType → Bool
  | .nonNull _ => true
  | _ => false

/-- A node an `@example`-style directive can be read from: a type reference,
a field definition, or an argument definition. -/
inductive ExampleNode where
  | ofType : GType → ExampleNode
  | ofField : GField → ExampleNode
  | ofArg : GArg → ExampleNode
deriving Repr, DecidableEq

/-- Options threaded through the OpenAPI generators. `customScalars` is the
caller's custom-scalar-to-schema override table, `enumTypes` the precomputed
enum fragment table used by `resolveParamSchema`. The configured example
directive, its parser and the external `getDirective` lookup are modelled
together by `extractExample`: it returns the raw extracted string for a node
carrying the directive and `none` both when no directive is configured and
when the node carries none. -/
structure Opts where
  customScalars : List (String × Json)
  enumTypes : List (String × Json)
  extractExample : ExampleNode → Option String

/-- JavaScript `parseInt` on a string: optional leading whitespace and sign,
then a maximal run of decimal digits; `none` models `NaN` (no digit found),
which `Response.json` serializes as `null`. -/
def jsParseInt (s : String) : Option Int :=
  let chars := s.toList.dropWhile (fun c => c = ' ')
  let (sign, rest) :=
    match chars with
    | '-' :: t => ((-1 : Int), t)
    | '+' :: t => ((1 : Int), t)
    | t => ((1 : Int), t)
  let digits := rest.takeWhile Char.isDigit
  if digits.isEmpty then none
  else some (sign * (digits.foldl (fun acc c => acc * 10 + (c.toNat - '0'.toNat)) 0 : Nat))

/-- JavaScript `Number(s)` restricted to the integral cases this code can
meet: an empty/whitespace string is `0`, an optionally-signed digit string is
that integer; everything else — including non-integral floats, which are
outside this model — is `NaN`, modelled as `none`. -/
def jsNumber (s : String) : Option Int :=
  let chars := s.toList.dropWhile (fun c => c = ' ')
  if chars.isEmpty then some 0
  else
    let (sign, rest) :=
      match chars with
      | '-' :: t => ((-1 : Int), t)
      | '+' :: t => ((1 : Int), t)
      | t => ((1 : Int), t)
    if rest.isEmpty ∨ ¬ rest.all Char.isDigit then none
    else some (sign * (rest.foldl (fun acc c => acc * 10 + (c.toNat - '0'.toNat)) 0 : Nat))

/-- The kind-specific example coercion switch of `addExampleFromDirective`
(open-api/utils.ts): the raw extracted string is coerced according to the
fragment's declared `type`; with no matching case the raw string is kept. -/
def coerceExample (component : Json) (raw : String) : Json :=
  match component.lookup "type" with
  | some (.str "string") => .str raw
  | some (.str "number") =>
    match jsNumber raw with
    | some n => .num n
    | none => .null
  | some (.str "boolean") =>
    let l := raw.toLower
    .bool (l == "yes" || l == "true" || l == "1")
  | some (.str "integer") =>
    match jsParseInt raw with
    | some n => .num n
    | none => .null
  | _ => .str raw

/-- Embeds `addExampleFromDirective` (open-api/utils.ts). The directive
lookup and configured parser are modelled by `opts.extractExample`; `none`
covers both an unconfigured directive and a node without one, and — like the
code's falsy check on the parser result — an empty extracted string leaves
the component unchanged. Otherwise the coerced example is added to the
fragment (object spread, i.e. key assignment). -/
def addExampleFromDirective (component : Json) (node : ExampleNode)
    (opts : Opts) : Json :=
  match opts.extractExample node with
  | none => component
  | some raw =>
    if raw = "" then component
    else component.setKey "example" (coerceExample component raw)

/-- Embeds `mapToPrimitive` (open-api/utils.ts): fixed fragments for the
built-in scalars. -/
def mapToPrimitive (type : String) : Option Json :=
  if type = "Int" then
    some (.obj [("type", .str "integer"), ("format", .str "int32")])
  else if type = "Float" then
    some (.obj [("type", .str "number"), ("format", .str "float")])
  else if type = "String" then some (.obj [("type", .str "string")])
  else if type = "Boolean" then some (.obj [("type", .str "boolean")])
  else if type = "ID" then some (.obj [("type", .str "string")])
  else none

/-- Embeds `mapToRef` (open-api/utils.ts). -/
def mapToRef (type : String) : String :=
  "#/components/schemas/" ++ type

/-- Embeds `resolveFieldType` (open-api/types.ts). Non-null wrappers are
unwrapped transparently; lists recurse on the element; a name with a
custom-scalar override, or naming an object type, becomes a `$ref` — the
function never descends into a named type's fields, which is what makes it
total on cyclic type graphs. Scalars map to a primitive fragment, their
`extensions.jsonSchema`, or an opaque object; enums list their values; any
other named type (including input objects appearing as field types, and
names missing from the type map) falls back to `{type: object}`. -/
def resolveFieldType (schema : GSchema) (opts : Opts) : GType → Json
  | .nonNull t => resolveFieldType schema opts t
  | .list t =>
    let items := resolveFieldType schema opts t
    let items := addExampleFromDirective items (.ofType t) opts
    .obj [("type", .str "array"), ("items", items)]
  | .named n =>
    if (lookupKV opts.customScalars n).isSome then
      .obj [("$ref", .str (mapToRef n))]
    else
      match lookupType schema n with
      | some td =>
        match td.body with
        | .objectT _ => .obj [("$ref", .str (mapToRef n))]
        | .scalarT ext =>
          match mapToPrimitive n with
          | some p => p
          | none =>
            match ext with
            | some j => j
            | none => .obj [("type", .str "object")]
        | .enumT values =>
          .obj [("type", .str "string"), ("enum", .arr (values.map .str))]
        | .inputObjectT _ => .obj [("type", .str "object")]
      | none => .obj [("type", .str "object")]

/-- Embeds `resolveField` (open-api/types.ts). -/
def resolveField (schema : GSchema) (opts : Opts) (field : GField) : Json :=
  resolveFieldType schema opts field.type

/-- JavaScript truthiness of an optional string: the empty string is falsy. -/
def truthyStr : Option String → Option String
  | some s => if s = "" then none else some s
  | none => none

/-- The property fragment one field contributes in
`buildSchemaObjectFromType`: its resolved field type, decorated with the
field's (truthy) description and its example directive. -/
def fieldProperty (schema : GSchema) (opts : Opts) (field : GField) : Json :=
  let prop := resolveField schema opts field
  let prop :=
    match truthyStr field.description with
    | some d => prop.setKey "description" (.str d)
    | none => prop
  addExampleFromDirective prop (.ofField field) opts

/-- One iteration of the field loop of `buildSchemaObjectFromType`: push the
field onto `required` when its type is non-null, and assign its decorated
property fragment. -/
def buildFieldStep (schema : GSchema) (opts : Opts)
    (acc : List String × List (String × Json)) (field : GField) :
    List String × List (String × Json) :=
  let required :=
    if isNonNullT field.type then acc.1 ++ [field.name] else acc.1
  (required, assignKV acc.2 field.name (fieldProperty schema opts field))

/-- Embeds `buildSchemaObjectFromType` (open-api/types.ts) applied to a type
with the given fields and description: `{type: "object"}` plus the `required`
list (only when non-empty), the per-field `properties` in declaration order,
and the type's (truthy) description. -/
def buildSchemaObjectFromType (schema : GSchema) (opts : Opts)
    (fields : List GField) (description : Option String) : Json :=
  let acc := fields.foldl (buildFieldStep schema opts) ([], [])
  .obj
    ([("type", .str "object")]
      ++ (if acc.1.isEmpty then [] else [("required", .arr (acc.1.map .str))])
      ++ [("properties", .obj acc.2)]
      ++ (match truthyStr description with
          | some d => [("description", .str d)]
          | none => []))

/-- The seed component for a declared custom scalar (router.ts lines
123-135): `{description: type.description, ...customScalars[typeName]}` —
the type's description first (present only when defined; a key assigned
`undefined` disappears on serialization), then the caller-declared shape's
keys. Spreading a non-object contributes no properties. -/
def scalarComponentBase (description : Option String) (sc : Json) : Json :=
  let base : List (String × Json) :=
    match description with
    | some s => [("description", Json.str s)]
    | none => []
  match sc with
  | .obj kvs => .obj (kvs.foldl (fun acc kv => assignKV acc kv.1 kv.2) base)
  | _ => .obj base

/-- What one entry of the type map contributes to `components.schemas` in
`createRouter`'s seeding loop: non-introspection object/input-object types
get their built component; any other non-introspection type with a
custom-scalar override gets its (example-decorated) declared component. -/
def componentFor (schema : GSchema) (opts : Opts) (entry : String × TypeDef) :
    Option (String × Json) :=
  match entry.2.body with
  | .objectT fields =>
    if isIntrospectionName entry.1 then none
    else some (entry.1,
      buildSchemaObjectFromType schema opts fields entry.2.description)
  | .inputObjectT fields =>
    if isIntrospectionName entry.1 then none
    else some (entry.1,
      buildSchemaObjectFromType schema opts fields entry.2.description)
  | _ =>
    if isIntrospectionName entry.1 then none
    else
      (lookupKV opts.customScalars entry.1).map fun sc =>
        (entry.1,
          addExampleFromDirective
            (scalarComponentBase entry.2.description sc)
            (.ofType (.named entry.1)) opts)

/-- One iteration of the seeding loop: assign the entry's component (when it
contributes one) under its type name. -/
def componentStep (schema : GSchema) (opts : Opts)
    (comps : List (String × Json)) (entry : String × TypeDef) :
    List (String × Json) :=
  match componentFor schema opts entry with
  | some kv => assignKV comps kv.1 kv.2
  | none => comps

/-- Embeds the `components.schemas` seeding loop of `createRouter`
(router.ts lines 105-137): iterate the type map in order and assign each
eligible type's component under its type name. -/
def buildComponentSchemas (schema : GSchema) (opts : Opts) :
    List (String × Json) :=
  schema.foldl (componentStep schema opts) []

/-- Substring test on character lists (JavaScript `String.prototype.includes`). -/
def listIncludes (sub : List Char) : List Char → Bool
  | [] => sub.isEmpty
  | c :: t => sub.isPrefixOf (c :: t) || listIncludes sub t

/-- JavaScript `url.includes(sub)`. -/
def strIncludes (s sub : String) : Bool :=
  listIncludes sub.toList s.toList

/-- Embeds `isInPath` (open-api/operations.ts): the url contains `:param` or
`\x7bparam\x7d` as a substring. -/
def isInPath (url param : String) : Bool :=
  strIncludes url (":" ++ param) || strIncludes url ("\x7b" ++ param ++ "\x7d")

/-- Operation kinds of the synthesized documents. -/
inductive OpKind where
  | query
  | mutation
deriving Repr, DecidableEq

/-- A variable definition of the synthesized operation: the variable's name
and its declared type (the AST `TypeNode`, structurally identical to `GType`). -/
structure VarDef where
  name : String
  type : GType
deriving Repr, DecidableEq

/-- The `OperationInfo` extracted from a synthesized document (src/ast.ts):
the operation kind, its optional name, the single selected root field, and
its variable definitions. -/
structure OperationInfo where
  opKind : OpKind
  opName : Option String
  fieldName : String
  vars : List VarDef
deriving Repr, DecidableEq

/-- The root operation type name consulted by `getOperationFieldNode`:
`titleCase(operation.operation)`, i.e. `Query` / `Mutation`. -/
def opTypeName : OpKind → String
  | .query => "Query"
  | .mutation => "Mutation"

/-- Embeds `getOperationFieldNode` (open-api/operations.ts): the definition
node of the operation's selected root field, found on the type literally
named `Query`/`Mutation`; `none` when that type is absent or not an object
type (the code then returns `undefined`). -/
def getOperationFieldNode (schema : GSchema) (opKind : OpKind)
    (fieldName : String) : Option GField :=
  match lookupType schema (opTypeName opKind) with
  | some td =>
    match td.body with
    | .objectT fields => fields.find? (fun f => f.name = fieldName)
    | _ => none
  | none => none

/-- Embeds `resolveVariableDescription` (open-api/operations.ts): the
description of the root field's argument sharing the variable's name. -/
def resolveVariableDescription (schema : GSchema) (opKind : OpKind)
    (fieldName varName : String) : Option String :=
  match getOperationFieldNode schema opKind fieldName with
  | some f => ((f.args.find? (fun a => a.name = varName)).bind
      (fun a => a.description))
  | none => none

/-- Embeds `resolveParamSchema` (open-api/operations.ts) on a variable's
declared type: unwrap non-null, recurse through lists (decorating items with
any example directive), `$ref` for custom scalars, then primitive fragment,
enum-table entry, or a `$ref` to the named component. -/
def resolveParamSchema (opts : Opts) : GType → Json
  | .nonNull t => resolveParamSchema opts t
  | .list t =>
    let items := resolveParamSchema opts t
    let items := addExampleFromDirective items (.ofType t) opts
    .obj [("type", .str "array"), ("items", items)]
  | .named n =>
    if (lookupKV opts.customScalars n).isSome then
      .obj [("$ref", .str (mapToRef n))]
    else
      match mapToPrimitive n with
      | some p => p
      | none =>
        match lookupKV opts.enumTypes n with
        | some e => e
        | none => .obj [("$ref", .str (mapToRef n))]

/-- Sets a fragment's `description` property. Assigning `undefined` (the
`none` case) leaves no observable property after JSON serialization, so the
fragment is returned unchanged. -/
def setDescription (j : Json) : Option String → Json
  | some d => j.setKey "description" (.str d)
  | none => j

/-- The body property fragment one variable contributes in
`resolveRequestBody`: its param schema plus the variable's description. -/
def bodyVarSchema (schema : GSchema) (opts : Opts) (opKind : OpKind)
    (fieldName : String) (vd : VarDef) : Json :=
  setDescription (resolveParamSchema opts vd.type)
    (resolveVariableDescription schema opKind fieldName vd.name)

/-- One iteration of the variable loop of `resolveRequestBody`: push the
variable onto `required` when its type is non-null, and assign its body
property fragment. -/
def bodyFieldStep (schema : GSchema) (opts : Opts) (opKind : OpKind)
    (fieldName : String) (acc : List String × List (String × Json))
    (vd : VarDef) : List String × List (String × Json) :=
  let required :=
    if isNonNullT vd.type then acc.1 ++ [vd.name] else acc.1
  (required, assignKV acc.2 vd.name
    (bodyVarSchema schema opts opKind fieldName vd))

/-- Embeds `resolveRequestBody` (open-api/operations.ts): one body property
per given variable in order, with the names of non-null-typed variables
collected into `required` (emitted only when non-empty). -/
def resolveRequestBody (schema : GSchema) (opts : Opts)
    (vds : List VarDef) (opKind : OpKind) (fieldName : String) : Json :=
  let acc := vds.foldl (bodyFieldStep schema opts opKind fieldName) ([], [])
  .obj
    ([("type", .str "object"), ("properties", .obj acc.2)]
      ++ (if acc.1.isEmpty then [] else [("required", .arr (acc.1.map .str))]))

/-- Embeds `resolveResponse` (open-api/operations.ts): the field-type
fragment of the operation's root field on the schema's `Query`/`Mutation`
type; `none` models the `undefined` of a missing root field. -/
def resolveResponse (schema : GSchema) (opts : Opts) (info : OperationInfo) :
    Option Json :=
  match lookupType schema (opTypeName info.opKind) with
  | some td =>
    match td.body with
    | .objectT fields =>
      (fields.find? (fun f => f.name = info.fieldName)).map
        (fun f => resolveFieldType schema opts f.type)
    | _ => none
  | none => none

/-- HTTP methods routable by fets, as used by this code. -/
inductive HTTPMethod where
  | GET
  | POST
  | PUT
  | PATCH
  | DELETE
deriving Repr, DecidableEq

/-- Embeds `useRequestBody` (router.ts): the body-bearing methods. -/
def useRequestBody : HTTPMethod → Bool
  | .POST => true
  | .PUT => true
  | .PATCH => true
  | _ => false

/-- One parameter bucket of a fets route schema: JSON-Schema `properties`
plus the `required` name list. -/
structure Bucket where
  properties : List (String × Json)
  required : List String
deriving Repr

/-- The request/response schemas `getRouteSchemas` builds for one route:
the optional JSON body schema, the path-`params` bucket, the `query` bucket,
and the response schema keyed by the route's response status. -/
structure RouteSchemas where
  json : Option Json
  params : Bucket
  query : Bucket
  response : Nat × Option Json
deriving Repr

/-- One iteration of the variable loop of `getRouteSchemas` (router.ts):
resolve the variable's fragment, attach its description and (when a
same-named field argument exists) its example, then place it — with its
required flag mirroring non-null — into the path bucket when its name occurs
in the path template, and into the query bucket otherwise. The decorated
fragment one variable contributes is `routeVarSchema`. -/
def routeVarSchema (schema : GSchema) (opts : Opts) (field : GField)
    (opKind : OpKind) (fieldName : String) (vd : VarDef) : Json :=
  let varSchema := resolveParamSchema opts vd.type
  let varSchema := setDescription varSchema
    (resolveVariableDescription schema opKind fieldName vd.name)
  match field.args.find? (fun a => a.name = vd.name) with
  | some arg => addExampleFromDirective varSchema (.ofArg arg) opts
  | none => varSchema

def routeSchemaStep (schema : GSchema) (opts : Opts) (field : GField)
    (path : String) (opKind : OpKind) (fieldName : String)
    (acc : Bucket × Bucket) (vd : VarDef) : Bucket × Bucket :=
  let varName := vd.name
  let varSchema := routeVarSchema schema opts field opKind fieldName vd
  if isInPath path varName then
    ({ properties := assignKV acc.1.properties varName varSchema,
       required :=
         if isNonNullT vd.type then acc.1.required ++ [varName]
         else acc.1.required },
      acc.2)
  else
    (acc.1,
      { properties := assignKV acc.2.properties varName varSchema,
        required :=
          if isNonNullT vd.type then acc.2.required ++ [varName]
          else acc.2.required })

/-- Embeds `getRouteSchemas` (router.ts): every operation variable is sorted
into the `params` or `query` bucket by `isInPath`; body-bearing methods
additionally get a request-body schema built from *all* the operation's
variables; the response schema is keyed by the route's response status. -/
def getRouteSchemas (schema : GSchema) (opts : Opts) (field : GField)
    (method : HTTPMethod) (path : String) (info : OperationInfo)
    (responseStatus : Nat) : RouteSchemas :=
  let buckets := info.vars.foldl
    (routeSchemaStep schema opts field path info.opKind info.fieldName)
    (⟨[], []⟩, ⟨[], []⟩)
  { json :=
      if useRequestBody method then
        some (resolveRequestBody schema opts info.vars info.opKind
          info.fieldName)
      else none,
    params := buckets.1,
    query := buckets.2,
    response := (responseStatus, resolveResponse schema opts info) }

/-- The per-error HTTP hint (`extensions.http` on a GraphQLError): an
optional status and header hints. -/
structure HttpHint where
  status : Option Nat
  headers : List (String × String)
deriving Repr, DecidableEq

/-- A GraphQL error as the error handler sees it: its message and the
optional HTTP hint carried in `extensions.http`. Other error fields pass
through the handler untouched and are not modelled. -/
structure GError where
  message : String
  http : Option HttpHint
deriving Repr, DecidableEq

/-- An HTTP response: status, headers, JSON body. -/
structure Resp where
  status : Nat
  headers : List (String × String)
  body : Json
deriving Repr

/-- The default headers `Response.json` attaches. -/
def respJsonHeaders : List (String × String) :=
  [("Content-Type", "application/json; charset=utf-8")]

/-- The serialization of one error into the `\x7berrors\x7d` envelope
(GraphQLError `toJSON`): its message, and — when the `http` hint is still
attached — the hint inside `extensions`, modelled by the `httpExtension`
key. A stripped error serializes without it. -/
def errorJson (e : GError) : Json :=
  .obj
    ([("message", .str e.message)]
      ++ (match e.http with
          | some h =>
            [("httpExtension",
              .obj
                [("status",
                  match h.status with
                  | some s => .num s
                  | none => .null),
                 ("headers", .obj (h.headers.map (fun p => (p.1, .str p.2))))])]
          | none => []))

/-- `delete error.extensions.http`: the error with its hint removed. -/
def stripHttp (e : GError) : GError :=
  { e with http := none }

/-- The status update of `defaultErrorHandler`'s loop: a truthy hinted
status replaces the current choice when none is chosen yet or when it is
strictly greater. -/
def jsStatusStep (cur : Option Nat) (s : Nat) : Option Nat :=
  if s ≠ 0 then
    match cur with
    | none => some s
    | some t => if t < s then some s else cur
  else cur

/-- One iteration of `defaultErrorHandler`'s loop (router.ts lines 60-73)
over the accumulator (chosen status, headers, errors processed so far): an
error with an `http` hint may raise the status (a truthy hinted status
strictly greater than the current choice, or any truthy hint when none is
chosen yet), merges its header hints (`Object.assign`), and has its hint
deleted; an error without a hint passes through unchanged. -/
def errorFoldStep
    (acc : Option Nat × List (String × String) × List GError) (e : GError) :
    Option Nat × List (String × String) × List GError :=
  match e.http with
  | none => (acc.1, acc.2.1, acc.2.2 ++ [e])
  | some h =>
    let status :=
      match h.status with
      | some s => jsStatusStep acc.1 s
      | none => acc.1
    let headers :=
      h.headers.foldl (fun hs p => assignKV hs p.1 p.2) acc.2.1
    (status, headers, acc.2.2 ++ [stripHttp e])

/-- Embeds `defaultErrorHandler` (router.ts lines 54-86): aggregate the
hinted statuses (500 when none), merge header hints over the JSON
content-type default, strip every hint, and emit the `\x7berrors\x7d`
envelope. -/
def defaultErrorHandler (errors : List GError) : Resp :=
  let acc := errors.foldl errorFoldStep (none, respJsonHeaders, [])
  { status := match acc.1 with | some s => if s = 0 then 500 else s | none => 500,
    headers := acc.2.1,
    body := .obj [("errors", .arr (acc.2.2.map errorJson))] }

/-- JavaScript `s.split(sep)` for a single-character separator, on the
character list: every occurrence of the separator opens a new segment
(`"".split` gives one empty segment, like JS). -/
def splitCharList (sep : Char) : List Char → List (List Char)
  | [] => [[]]
  | c :: t =>
    if c = sep then [] :: splitCharList sep t
    else
      match splitCharList sep t with
      | h :: rest => (c :: h) :: rest
      | [] => [[c]]

/-- JavaScript `s.split(sep)` for a single-character separator. -/
def splitOnChar (sep : Char) (s : String) : List String :=
  (splitCharList sep s.toList).map List.asString

/-- Joins segments back with a separator (`Array.prototype.join`), used to
keep every `=` after the first one inside a query value. -/
def joinSep (sep : String) : List String → String
  | [] => ""
  | [x] => x
  | x :: xs => x ++ sep ++ joinSep sep xs

/-- The query string consulted by `pickParam`: `url.split('?')[1]`, the
segment between the first and second `?` (empty when the url has none,
`URLSearchParams(undefined)` being empty). -/
def queryStringOf (url : String) : String :=
  ((splitOnChar '?' url).drop 1).headD ""

/-- Entry parsing of `URLSearchParams`: `&`-separated non-empty segments,
each split at its first `=` (no `=` means an empty value). Percent/plus
decoding is the identity on the names and values used here and is not
modelled. -/
def parseSearch (qs : String) : List (String × String) :=
  ((splitOnChar '&' qs).filter (fun part => part ≠ "")).map
    (fun part =>
      match splitOnChar '=' part with
      | [] => (part, "")
      | k :: rest => (k, joinSep "=" rest))

/-- `searchParams.getAll(name)`: all values for the key, in order. -/
def getAllParams (qs name : String) : List String :=
  ((parseSearch qs).filter (fun p => p.1 = name)).map Prod.snd

/-- Whether the parsed JSON body has `name` as an own property
(`body && body.hasOwnProperty(name)`): only objects do — a GraphQL variable
name is never the purely-numeric index string an array would own. -/
def bodyHasOwn (body : Json) (name : String) : Bool :=
  match body with
  | .obj kvs => (lookupKV kvs name).isSome
  | _ => false

/-- The body value `pickParam` returns for `name` (only consulted when
`bodyHasOwn` holds). -/
def bodyGet (body : Json) (name : String) : Option Json :=
  match body with
  | .obj kvs => lookupKV kvs name
  | _ => none

/-- Embeds `pickParam` (router.ts lines 642-664): path params first, then
the query string — one occurrence yields that single value, several yield
the ordered value list — then a same-named own key of the parsed body;
`none` models the implicit `undefined` when all three miss. -/
def pickParam (name url : String) (params : List (String × String))
    (body : Json) : Option Json :=
  match lookupKV params name with
  | some v => some (.str v)
  | none =>
    match getAllParams (queryStringOf url) name with
    | [] =>
      if bodyHasOwn body name then bodyGet body name else none
    | [v] => some (.str v)
    | vs => some (.arr (vs.map .str))

/-- The transport request as the handler sees it: matched path params, the
full url, and the body text (`none` when `request.body == null`). -/
structure Request where
  url : String
  params : List (String × String)
  bodyText : Option String
deriving Repr

/-- The structured 400 error the handler raises for a malformed body. -/
def invalidJsonError : GError :=
  { message := "POST body sent invalid JSON.",
    http := some { status := some 400, headers := [] } }

/-- Embeds the body-parsing prologue of `useHandler` (router.ts lines
560-577): the body starts as `\x7b\x7d`; with a body stream present its text
is read, and only a *non-empty* text is JSON-parsed — a parse failure raises
the 400 invalid-JSON error, an empty text keeps the empty object. `jsonParse`
abstracts the external `JSON.parse` (`none` = exception). -/
def parseBody (jsonParse : String → Option Json) :
    Option String → Except GError Json
  | none => .ok (.obj [])
  | some strBody =>
    if strBody = "" then .ok (.obj [])
    else
      match jsonParse strBody with
      | some v => .ok v
      | none => .error invalidJsonError

/-- Modelled from the spec: `parseVariable` lives in src/parse.ts, which is
not among the sources. Per §4.4, raw values are coerced to the variable's
declared type — the coercion itself (scalar parsing, list splitting, enum
validation, nested input-object decoding) is the caller-supplied `coerce`,
which may fail with a client-input message — and a variable "found in none
of the three sources is 'not provided'": an absent raw value stays absent,
never forced to null. -/
def parseVariable (coerce : VarDef → Json → Except String Json)
    (vd : VarDef) : Option Json → Except String (Option Json)
  | none => .ok none
  | some v => (coerce vd v).map some

/-- The structured 400 error wrapping a coercion failure (router.ts lines
603-611). -/
def coercionError (msg : String) : GError :=
  { message := msg, http := some { status := some 400, headers := [] } }

/-- Embeds the variable-resolution reduce of `useHandler` (router.ts lines
579-611): each operation variable is picked from path/query/body and parsed;
an `undefined` result is omitted from the variable set, a defined one is
added under the variable's name; any failure aborts the reduce and is
re-raised as a 400 client error. -/
def resolveVariables (coerce : VarDef → Json → Except String Json)
    (vds : List VarDef) (url : String) (params : List (String × String))
    (body : Json) : Except GError (List (String × Json)) :=
  let go := vds.foldlM
    (fun (acc : List (String × Json)) vd =>
      (parseVariable coerce vd (pickParam vd.name url params body)).map
        (fun value =>
          match value with
          | none => acc
          | some v => assignKV acc vd.name v))
    []
  match go with
  | .ok vars => .ok vars
  | .error msg => .error (coercionError msg)

/-- A GraphQL execution result: the data map (keyed by root field name) and
the field-error list, each absent when the engine omits the key. -/
structure ExecResult where
  data : Option (List (String × Json))
  errors : Option (List GError)

/-- Embeds the per-request handler returned by `useHandler` (router.ts lines
559-635): parse the body, resolve the variables, then run the injected
context factory and execution engine (`execute`, whose `.error` case models
an exception escaping either); field errors — and every error raised on the
way — go to the error-handling policy, and a clean result answers with only
the selected root field's data at the route's configured status. -/
def useHandler (jsonParse : String → Option Json)
    (coerce : VarDef → Json → Except String Json)
    (execute : List (String × Json) → Except GError ExecResult)
    (errHandler : List GError → Resp) (responseStatus : Nat)
    (fieldName : String) (info : OperationInfo) (request : Request) : Resp :=
  match parseBody jsonParse request.bodyText with
  | .error e => errHandler [e]
  | .ok body =>
    match resolveVariables coerce info.vars request.url request.params body with
    | .error e => errHandler [e]
    | .ok variableValues =>
      match execute variableValues with
      | .error e => errHandler [e]
      | .ok result =>
        match result.errors with
        | some errs => errHandler errs
        | none =>
          { status := responseStatus,
            headers := respJsonHeaders,
            body := (result.data.bind (fun d => lookupKV d fieldName)).getD
              .null }

/-- Modelled from the spec: `convertName` lives in src/common.ts, which is
not among the sources. Per §4.3 the route segment is the field name under a
deterministic case/word-boundary normalization, e.g. `getUserById` →
`get-user-by-id` (kebab-case): an upper-case letter opens a new
hyphen-separated word and is lower-cased. -/
def convertName (name : String) : String :=
  (name.toList.foldl
    (fun acc c =>
      if c.isUpper then
        acc ++ (if acc.isEmpty then [] else ['-']) ++ [c.toLower]
      else acc ++ [c])
    []).asString

/-- Embeds `getPath` (router.ts lines 638-640). -/
def getPath (fieldName : String) (hasId : Bool) : String :=
  "/" ++ convertName fieldName ++ (if hasId then "/:id" else "")

/-- A per-field route override entry (`sofa.routes`, keyed by the
`RootType.fieldName` string): each field independently supersedes the
default. -/
structure RouteOverride where
  method : Option HTTPMethod
  path : Option String
  responseStatus : Option Nat
  tags : Option (List String)
  description : Option String
deriving Repr

/-- The derived route of one exposed root field. -/
structure Route where
  method : HTTPMethod
  path : String
  responseStatus : Nat
deriving Repr, DecidableEq

/-- Whether `isObjectType` holds of a type reference: it is a bare name
denoting an object type of the schema. -/
def isObjectNamed (schema : GSchema) : GType → Bool
  | .named n =>
    match lookupType schema n with
    | some td =>
      match td.body with
      | .objectT _ => true
      | _ => false
    | none => false
  | _ => false

/-- Embeds the route derivation of `createQueryRoute` (router.ts lines
359-372): a query field's route defaults to GET at `getPath`, with the
`/:id` suffix exactly when the field's return type is a single (possibly
non-null-wrapped) object type and the field has an argument literally named
`id`; an override entry under `Query.fieldName` supersedes field-by-field;
the response status defaults to 200. -/
def createQueryRouteDescriptor (schema : GSchema)
    (routes : List (String × RouteOverride)) (queryTypeName fieldName : String)
    (field : GField) : Route :=
  let isSingle :=
    isObjectNamed schema field.type ||
      (match field.type with
       | .nonNull t => isObjectNamed schema t
       | _ => false)
  let hasIdArgument := field.args.any (fun arg => arg.name = "id")
  let routeConfig := lookupKV routes (queryTypeName ++ "." ++ fieldName)
  { method := (routeConfig.bind (fun rc => rc.method)).getD .GET,
    path := (routeConfig.bind (fun rc => rc.path)).getD
      (getPath fieldName (isSingle && hasIdArgument)),
    responseStatus := (routeConfig.bind (fun rc => rc.responseStatus)).getD 200 }

/-- Embeds the route derivation of `createMutationRoute` (router.ts lines
510-521): a mutation field's route defaults to POST at `getPath` with no
`:id` suffix; an override entry under `Mutation.fieldName` supersedes
field-by-field; the response status defaults to 200. -/
def createMutationRouteDescriptor
    (routes : List (String × RouteOverride))
    (mutationTypeName fieldName : String) : Route :=
  let routeConfig := lookupKV routes (mutationTypeName ++ "." ++ fieldName)
  { method := (routeConfig.bind (fun rc => rc.method)).getD .POST,
    path := (routeConfig.bind (fun rc => rc.path)).getD (getPath fieldName false),
    responseStatus := (routeConfig.bind (fun rc => rc.responseStatus)).getD 200 }

/-- Batch item methods (`method ∈ \x7bGET, POST\x7d`). -/
inductive BMethod where
  | GET
  | POST
deriving Repr, DecidableEq

/-- One item of a `/batch` request body. -/
structure BatchItem where
  path : String
  method : BMethod
  params : Option (List (String × Json))

/-- The internal request one batch item is turned into (router.ts lines
299-312): its path resolved against the local origin, with the params
appended as query-string entries for GET and serialized as the JSON body for
POST. -/
structure SubRequest where
  path : String
  method : BMethod
  queryAdds : List (String × Json)
  bodyJson : Option Json

/-- Embeds the per-item request construction of the `/batch` handler. -/
def buildSubRequest (item : BatchItem) : SubRequest :=
  match item.params with
  | none =>
    { path := item.path, method := item.method, queryAdds := [],
      bodyJson := none }
  | some ps =>
    match item.method with
    | .GET =>
      { path := item.path, method := item.method, queryAdds := ps,
        bodyJson := none }
    | .POST =>
      { path := item.path, method := item.method, queryAdds := [],
        bodyJson := some (.obj ps) }

/-- One batch slot's outcome as serialized into the batch response:
`\x7bstatus: res.status, body: await res.json()\x7d`. -/
def batchResultJson (res : Resp) : Json :=
  .obj [("status", .num res.status), ("body", res.body)]

/-- The 413 message of the `/batch` size check. -/
def batchLimitMessage (limit : Nat) : String :=
  "Batching is limited to " ++ toString limit ++ " operations per request."

/-- Embeds the `/batch` handler (router.ts lines 277-327): a body longer
than the configured limit is answered immediately with a single 413, and
otherwise every item is dispatched through the full routing pipeline —
abstracted by `handle` — and the `\x7bstatus, body\x7d` outcomes are
returned, joined by `Promise.all`, as a 200 array in input order. -/
def batchHandler (limit : Nat) (handle : SubRequest → Resp)
    (items : List BatchItem) : Resp :=
  if items.length > limit then
    { status := 413,
      headers := respJsonHeaders,
      body := .obj [("message", .str (batchLimitMessage limit))] }
  else
    { status := 200,
      headers := respJsonHeaders,
      body := .arr (items.map
        (fun it => batchResultJson (handle (buildSubRequest it)))) }

/-- The concurrent fan-out of the `/batch` handler, made explicit: slot `i`
of the result array is filled with item `i`'s outcome when that dispatch
completes, and dispatches complete in an arbitrary interleaving `order`.
`Promise.all`'s join is the state after every index has completed. -/
def fillSlots {α : Type} (f : Nat → α) (order : List Nat)
    (slots : List (Option α)) : List (Option α) :=
  order.foldl (fun acc i => acc.set i (some (f i))) slots

/-- The batch result array assembled under completion order `order`:
starting from all-empty slots, each completing dispatch `i` writes item
`i`'s serialized outcome into its own slot. -/
def batchGather (handle : SubRequest → Resp) (items : List BatchItem)
    (order : List Nat) : List (Option Json) :=
  fillSlots
    (fun i =>
      match items[i]? with
      | some it => batchResultJson (handle (buildSubRequest it))
      | none => .null)
    order
    (List.replicate items.length none)

theorem lookupKV_cons {β : Type} (a : String) (b : β)
    (t : List (String × β)) (k : String) :
    lookupKV ((a, b) :: t) k = if a = k then some b else lookupKV t k := rfl

theorem lookupKV_isSome_iff {β : Type} (l : List (String × β)) (k : String) :
    (lookupKV l k).isSome = true ↔ k ∈ l.map Prod.fst := by
  induction l with
  | nil => simp [lookupKV]
  | cons p t ih =>
    cases p with
    | mk a b =>
      by_cases h : a = k
      · simp [lookupKV_cons, h]
      · have h' : ¬ k = a := fun hh => h hh.symm
        simp [lookupKV_cons, h, h', ih]

theorem lookupKV_append {β : Type} (l₁ l₂ : List (String × β)) (k : String) :
    lookupKV (l₁ ++ l₂) k =
      match lookupKV l₁ k with
      | some v => some v
      | none => lookupKV l₂ k := by
  induction l₁ with
  | nil => simp [lookupKV]
  | cons p t ih =>
    cases p with
    | mk a b =>
      by_cases h : a = k
      · simp [lookupKV_cons, h]
      · simp [lookupKV_cons, h, ih]

theorem assignKV_of_lookup_none {β : Type} {l : List (String × β)}
    {k : String} (v : β) (h : lookupKV l k = none) :
    assignKV l k v = l ++ [(k, v)] := by
  simp [assignKV, h]

theorem lookupKV_mapReplace {β : Type} (t : List (String × β))
    (k k' : String) (v : β) (h : k' ≠ k) :
    lookupKV (t.map (fun p => if p.1 = k then (k, v) else p)) k' =
      lookupKV t k' := by
  induction t with
  | nil => rfl
  | cons p t ih =>
    cases p with
    | mk a b =>
      by_cases ha : a = k
      · have h' : ¬ k = k' := fun hh => h hh.symm
        simp [lookupKV_cons, ha, h', ih]
      · by_cases ha' : a = k'
        · simp [lookupKV_cons, ha, ha', h]
        · simp [lookupKV_cons, ha, ha', ih]

theorem lookupKV_assignKV_ne {β : Type} (l : List (String × β))
    {k k' : String} (v : β) (h : k' ≠ k) :
    lookupKV (assignKV l k v) k' = lookupKV l k' := by
  unfold assignKV
  by_cases hs : (lookupKV l k).isSome = true
  · rw [if_pos hs]
    exact lookupKV_mapReplace l k k' v h
  · rw [if_neg hs, lookupKV_append]
    cases hl : lookupKV l k' with
    | some v' => rfl
    | none =>
      have h' : ¬ k = k' := fun hh => h hh.symm
      simp [lookupKV_cons, h', lookupKV]

theorem mem_keys_assignKV {β : Type} (l : List (String × β))
    (k k' : String) (v : β) :
    k' ∈ (assignKV l k v).map Prod.fst ↔ (k' = k ∨ k' ∈ l.map Prod.fst) := by
  unfold assignKV
  by_cases hs : (lookupKV l k).isSome
  · have hk : k ∈ l.map Prod.fst := (lookupKV_isSome_iff l k).mp hs
    simp only [hs, if_pos, List.map_map, List.mem_map] at *
    constructor
    · rintro ⟨p, hp, hpe⟩
      by_cases ha : p.1 = k
      · simp [ha] at hpe; exact Or.inl hpe.symm
      · right
        refine ⟨p, hp, ?_⟩
        simpa [ha] using hpe
    · rintro (rfl | ⟨p, hp, rfl⟩)
      · obtain ⟨p, hp, hpe⟩ := hk
        exact ⟨p, hp, by simp [hpe]⟩
      · by_cases ha : p.1 = k
        · exact ⟨p, hp, by simp [ha]⟩
        · exact ⟨p, hp, by simp [ha]⟩
  · simp only [hs, if_neg, Bool.false_eq_true, not_false_eq_true, List.map_append,
      List.mem_append]
    simp [or_comm]

/-- C9: a batch whose item count exceeds the configured limit is answered
immediately with a single 413-class response carrying the limit message, and
no item is dispatched: the response is independent of the dispatch pipeline
altogether. -/
theorem batch_over_limit_rejected (limit : Nat) (h₁ h₂ : SubRequest → Resp)
    (items : List BatchItem) (hover : items.length > limit) :
    batchHandler limit h₁ items = batchHandler limit h₂ items
    ∧ (batchHandler limit h₁ items).status = 413
    ∧ (batchHandler limit h₁ items).body =
        .obj [("message", .str (batchLimitMessage limit))] := by
  refine ⟨?_, ?_, ?_⟩ <;> simp [batchHandler, hover]

theorem batch_over_limit_rejected_witness :
    ([(⟨"/a", .GET, none⟩ : BatchItem), ⟨"/b", .POST, none⟩].length > 1)
    ∧ (batchHandler 1 (fun _ => ⟨200, [], .null⟩)
          [⟨"/a", .GET, none⟩, ⟨"/b", .POST, none⟩]
        = batchHandler 1 (fun _ => ⟨500, [], .null⟩)
          [⟨"/a", .GET, none⟩, ⟨"/b", .POST, none⟩]
      ∧ (batchHandler 1 (fun _ => ⟨200, [], .null⟩)
          [⟨"/a", .GET, none⟩, ⟨"/b", .POST, none⟩]).status = 413
      ∧ (batchHandler 1 (fun _ => ⟨200, [], .null⟩)
          [⟨"/a", .GET, none⟩, ⟨"/b", .POST, none⟩]).body =
          .obj [("message", .str (batchLimitMessage 1))]) :=
  ⟨by decide,
    batch_over_limit_rejected 1 (fun _ => ⟨200, [], .null⟩)
      (fun _ => ⟨500, [], .null⟩)
      [⟨"/a", .GET, none⟩, ⟨"/b", .POST, none⟩] (by decide)⟩

theorem fillSlots_getElem? {α : Type} (f : Nat → α) (order : List Nat)
    (slots : List (Option α)) (j : Nat) :
    (fillSlots f order slots)[j]? =
      if j ∈ order ∧ j < slots.length then some (some (f j))
      else slots[j]? := by
  induction order generalizing slots with
  | nil => simp [fillSlots]
  | cons i order ih =>
    rw [show fillSlots f (i :: order) slots
        = fillSlots f order (slots.set i (some (f i))) from rfl]
    rw [ih, List.length_set]
    by_cases hmem : j ∈ order
    · by_cases hlt : j < slots.length
      · simp [hmem, hlt, List.mem_cons]
      · simp only [hmem, hlt, and_false, if_false, and_true]
        rw [List.getElem?_eq_none
            (by simpa using Nat.le_of_not_lt hlt),
          List.getElem?_eq_none (Nat.le_of_not_lt hlt)]
    · by_cases hij : j = i
      · subst hij
        by_cases hlt : j < slots.length
        · simp [hmem, hlt, List.getElem?_set_eq_of_lt]
        · have hle : slots.length ≤ j := Nat.le_of_not_lt hlt
          simp only [hmem, hlt, and_false, if_false, false_and]
          rw [List.getElem?_eq_none (by simpa using hle),
            List.getElem?_eq_none hle]
      · simp only [hmem, and_false, if_false, List.mem_cons, hij, false_or,
          false_and]
        exact List.getElem?_set_ne (fun h => hij h.symm)

theorem batchGather_perm (handle : SubRequest → Resp) (items : List BatchItem)
    (order : List Nat) (hperm : order.Perm (List.range items.length)) :
    batchGather handle items order =
      items.map
        (fun it => some (batchResultJson (handle (buildSubRequest it)))) := by
  apply List.ext_getElem?
  intro j
  rw [show batchGather handle items order
      = fillSlots
          (fun i =>
            match items[i]? with
            | some it => batchResultJson (handle (buildSubRequest it))
            | none => .null)
          order (List.replicate items.length none) from rfl]
  rw [fillSlots_getElem?, List.length_replicate]
  have hmem : j ∈ order ↔ j < items.length := by
    rw [hperm.mem_iff, List.mem_range]
  by_cases hj : j < items.length
  · rw [if_pos ⟨hmem.mpr hj, hj⟩, List.getElem?_map,
      List.getElem?_eq_getElem hj]
    simp
  · rw [if_neg (fun hc => hj hc.2),
      List.getElem?_eq_none (by simpa using Nat.le_of_not_lt hj),
      List.getElem?_eq_none (by simpa using Nat.le_of_not_lt hj)]

/-- C2: a batch within the configured limit is answered 200 with one
`\x7bstatus, body\x7d` slot per item in the original input order: under any
completion interleaving of the concurrent dispatches the assembled slots are
the in-order outcomes, slot `k` is exactly item `k`'s own outcome, and a
different outcome for one item — e.g. a failure captured into an error
response by its own sub-pipeline — never changes a sibling slot or the
overall 200. -/
theorem batch_within_limit_ordered_isolated (limit : Nat)
    (handle handle₂ : SubRequest → Resp) (items : List BatchItem)
    (order : List Nat) (hlim : items.length ≤ limit)
    (hperm : order.Perm (List.range items.length)) :
    (batchHandler limit handle items).status = 200
    ∧ (batchHandler limit handle items).body =
        .arr (items.map
          (fun it => batchResultJson (handle (buildSubRequest it))))
    ∧ batchGather handle items order =
        items.map
          (fun it => some (batchResultJson (handle (buildSubRequest it))))
    ∧ ∀ (k : Nat) (it : BatchItem), items[k]? = some it →
        (Json.arrItems (batchHandler limit handle items).body)[k]? =
          some (batchResultJson (handle (buildSubRequest it)))
        ∧ (handle (buildSubRequest it) = handle₂ (buildSubRequest it) →
            (Json.arrItems (batchHandler limit handle items).body)[k]? =
              (Json.arrItems (batchHandler limit handle₂ items).body)[k]?) := by
  have hnot : ¬ items.length > limit := Nat.not_lt.mpr hlim
  refine ⟨?_, ?_, batchGather_perm handle items order hperm, ?_⟩
  · simp [batchHandler, hnot]
  · simp [batchHandler, hnot]
  · intro k it hk
    constructor
    · simp [batchHandler, hnot, Json.arrItems, List.getElem?_map, hk]
    · intro hagree
      simp [batchHandler, hnot, Json.arrItems, List.getElem?_map, hk, hagree]

/-- The three-item batch of the spec's scenario: item 2's sub-pipeline fails
and answers with its own error response. -/
def wBatchItems : List BatchItem :=
  [⟨"/a", .GET, none⟩, ⟨"/b", .GET, none⟩, ⟨"/c", .GET, none⟩]

/-- A dispatch pipeline in which the item routed to `/b` fails with a 400
error envelope and every other item succeeds. -/
def wBatchHandle : SubRequest → Resp := fun r =>
  if r.path = "/b" then
    ⟨400, respJsonHeaders,
      .obj [("errors", .arr [.obj [("message", .str "boom")]])]⟩
  else ⟨200, respJsonHeaders, .str "ok"⟩

theorem batch_within_limit_ordered_isolated_witness :
    wBatchItems.length ≤ 3
    ∧ (batchHandler 3 wBatchHandle wBatchItems).status = 200
    ∧ batchGather wBatchHandle wBatchItems [2, 0, 1] =
        wBatchItems.map
          (fun it => some (batchResultJson (wBatchHandle (buildSubRequest it))))
    ∧ (Json.arrItems (batchHandler 3 wBatchHandle wBatchItems).body)[1]? =
        some (batchResultJson (wBatchHandle (buildSubRequest ⟨"/b", .GET, none⟩))) :=
  have h := batch_within_limit_ordered_isolated 3 wBatchHandle wBatchHandle
    wBatchItems [2, 0, 1] (by decide) (by decide)
  ⟨by decide, h.1, h.2.2.1, (h.2.2.2 1 ⟨"/b", .GET, none⟩ rfl).1⟩

/-- The status hints carried by a list of errors, in order. -/
def hintsOf (errors : List GError) : List Nat :=
  errors.filterMap (fun e => e.http.bind (fun h => h.status))

theorem jsStatusFold_some (l : List Nat) (hl : ∀ s ∈ l, 0 < s) (t : Nat) :
    l.foldl jsStatusStep (some t) = some (l.foldl Nat.max t) := by
  induction l generalizing t with
  | nil => rfl
  | cons s rest ih =>
    have hs : 0 < s := hl s (List.mem_cons_self s rest)
    have hrest : ∀ u ∈ rest, 0 < u := fun u hu => hl u (List.mem_cons_of_mem s hu)
    rw [List.foldl_cons, List.foldl_cons]
    by_cases hts : t < s
    · rw [show jsStatusStep (some t) s = some s by
        simp [jsStatusStep, Nat.pos_iff_ne_zero.mp hs, hts]]
      rw [ih hrest, show Nat.max t s = s by simp [Nat.max_def]; omega]
    · rw [show jsStatusStep (some t) s = some t by
        simp [jsStatusStep, Nat.pos_iff_ne_zero.mp hs, hts]]
      rw [ih hrest, show Nat.max t s = t by simp [Nat.max_def]; omega]

theorem jsStatusFold_none (l : List Nat) (hl : ∀ s ∈ l, 0 < s)
    (hne : l ≠ []) : l.foldl jsStatusStep none = some (l.foldl Nat.max 0) := by
  cases l with
  | nil => exact absurd rfl hne
  | cons s rest =>
    have hs : 0 < s := hl s (List.mem_cons_self s rest)
    have hrest : ∀ u ∈ rest, 0 < u :=
      fun u hu => hl u (List.mem_cons_of_mem s hu)
    rw [List.foldl_cons, List.foldl_cons]
    rw [show jsStatusStep none s = some s by
      simp [jsStatusStep, Nat.pos_iff_ne_zero.mp hs]]
    rw [jsStatusFold_some rest hrest s, show Nat.max 0 s = s by simp [Nat.max_def]]

theorem errorFold_status (errors : List GError)
    (acc : Option Nat × List (String × String) × List GError) :
    (errors.foldl errorFoldStep acc).1 =
      (hintsOf errors).foldl jsStatusStep acc.1 := by
  induction errors generalizing acc with
  | nil => rfl
  | cons e rest ih =>
    rw [List.foldl_cons, ih]
    cases he : e.http with
    | none => simp [hintsOf, errorFoldStep, he]
    | some h =>
      cases hst : h.status with
      | none => simp [hintsOf, errorFoldStep, he, hst]
      | some s => simp [hintsOf, errorFoldStep, he, hst]

theorem errorFold_processed (errors : List GError)
    (acc : Option Nat × List (String × String) × List GError) :
    (errors.foldl errorFoldStep acc).2.2 =
      acc.2.2 ++ errors.map stripHttp := by
  induction errors generalizing acc with
  | nil => simp
  | cons e rest ih =>
    rw [List.foldl_cons, ih]
    cases he : e.http with
    | none =>
      have hself : stripHttp e = e := by
        cases e with
        | mk m hh => simp at he; simp [stripHttp, he]
      simp [errorFoldStep, he, hself]
    | some h => simp [errorFoldStep, he, stripHttp]

theorem headerAssignFold_mem (hs : List (String × String)) :
    ∀ (base : List (String × String)) (k : String),
      (k ∈ base.map Prod.fst ∨ k ∈ hs.map Prod.fst) →
      k ∈ (hs.foldl (fun acc p => assignKV acc p.1 p.2) base).map Prod.fst := by
  induction hs with
  | nil =>
    intro base k h
    rw [List.foldl_nil]
    rcases h with hb | hh
    · exact hb
    · exact absurd hh (by simp)
  | cons p rest ih =>
    intro base k h
    rw [List.foldl_cons]
    apply ih
    rcases h with hb | hh
    · exact Or.inl ((mem_keys_assignKV base p.1 k p.2).mpr (Or.inr hb))
    · rw [List.map_cons, List.mem_cons] at hh
      rcases hh with he | ht
      · exact Or.inl ((mem_keys_assignKV base p.1 k p.2).mpr (Or.inl he))
      · exact Or.inr ht

theorem errorFold_headers_mem (errors : List GError) :
    ∀ (acc : Option Nat × List (String × String) × List GError) (k : String),
      (k ∈ acc.2.1.map Prod.fst
        ∨ ∃ e ∈ errors, ∃ h, e.http = some h ∧ k ∈ h.headers.map Prod.fst) →
      k ∈ ((errors.foldl errorFoldStep acc).2.1).map Prod.fst := by
  induction errors with
  | nil =>
    intro acc k h
    rw [List.foldl_nil]
    rcases h with hb | ⟨e, he, _⟩
    · exact hb
    · exact absurd he (List.not_mem_nil e)
  | cons e rest ih =>
    intro acc k h
    rw [List.foldl_cons]
    apply ih
    rcases h with hb | ⟨e', he', hh, hesome, hmem⟩
    · left
      cases hhttp : e.http with
      | none => simpa [errorFoldStep, hhttp] using hb
      | some hint =>
        simp only [errorFoldStep, hhttp]
        exact headerAssignFold_mem hint.headers acc.2.1 k (Or.inl hb)
    · rcases List.mem_cons.mp he' with heq | hrest
      · subst heq
        left
        simp only [errorFoldStep, hesome]
        exact headerAssignFold_mem hh.headers acc.2.1 k (Or.inr hmem)
      · exact Or.inr ⟨e', hrest, hh, hesome, hmem⟩

theorem le_foldl_max (l : List Nat) : ∀ a : Nat, a ≤ l.foldl Nat.max a := by
  induction l with
  | nil => intro a; simp
  | cons s rest ih =>
    intro a
    rw [List.foldl_cons]
    exact Nat.le_trans (by simp [Nat.max_def]; split <;> omega)
      (ih (Nat.max a s))

theorem foldl_max_pos (l : List Nat) (hl : ∀ s ∈ l, 0 < s) (hne : l ≠ []) :
    0 < l.foldl Nat.max 0 := by
  cases l with
  | nil => exact absurd rfl hne
  | cons s rest =>
    have hs : 0 < s := hl s (List.mem_cons_self s rest)
    rw [List.foldl_cons]
    calc 0 < s := hs
      _ ≤ Nat.max 0 s := by simp [Nat.max_def]
      _ ≤ _ := le_foldl_max rest (Nat.max 0 s)

/-- C3: the default error-handling policy answers with the maximum hinted
HTTP status across all errors (500 when none hints one), headers including
every hinted header key on top of the JSON content type, every `http` hint
stripped before serialization — a serialized stripped error carries no hint
data — and the `\x7berrors: [...]\x7d` envelope as the body. -/
theorem default_error_handler_spec (errors : List GError)
    (hpos : ∀ s ∈ hintsOf errors, 0 < s) :
    (hintsOf errors = [] → (defaultErrorHandler errors).status = 500)
    ∧ (hintsOf errors ≠ [] →
        (defaultErrorHandler errors).status = (hintsOf errors).foldl Nat.max 0)
    ∧ "Content-Type" ∈ (defaultErrorHandler errors).headers.map Prod.fst
    ∧ (∀ e ∈ errors, ∀ h, e.http = some h →
        ∀ p ∈ h.headers,
          p.1 ∈ (defaultErrorHandler errors).headers.map Prod.fst)
    ∧ (defaultErrorHandler errors).body =
        .obj [("errors", .arr ((errors.map stripHttp).map errorJson))]
    ∧ (∀ e : GError, (errorJson (stripHttp e)).lookup "httpExtension" = none) := by
  have hstat := errorFold_status errors (none, respJsonHeaders, [])
  refine ⟨?_, ?_, ?_, ?_, ?_, ?_⟩
  · intro hemp
    show (match (errors.foldl errorFoldStep (none, respJsonHeaders, [])).1 with
      | some s => if s = 0 then 500 else s
      | none => 500) = 500
    rw [hstat, hemp]
    rfl
  · intro hne
    show (match (errors.foldl errorFoldStep (none, respJsonHeaders, [])).1 with
      | some s => if s = 0 then 500 else s
      | none => 500) = (hintsOf errors).foldl Nat.max 0
    rw [hstat, jsStatusFold_none (hintsOf errors) hpos hne]
    have hgt : ¬ (hintsOf errors).foldl Nat.max 0 = 0 :=
      Nat.pos_iff_ne_zero.mp (foldl_max_pos (hintsOf errors) hpos hne)
    simp [hgt]
  · exact errorFold_headers_mem errors (none, respJsonHeaders, []) "Content-Type"
      (Or.inl (by simp [respJsonHeaders]))
  · intro e he h hsome p hp
    exact errorFold_headers_mem errors (none, respJsonHeaders, []) p.1
      (Or.inr ⟨e, he, h, hsome, List.mem_map_of_mem Prod.fst hp⟩)
  · show Json.obj
      [("errors", .arr
        ((errors.foldl errorFoldStep (none, respJsonHeaders, [])).2.2.map
          errorJson))] = _
    rw [errorFold_processed errors (none, respJsonHeaders, [])]
    rfl
  · intro e
    cases e with
    | mk m hh => simp [errorJson, stripHttp, Json.lookup, lookupKV]

/-- Two field errors hinting 400 and 404 with distinct header hints. -/
def wErrors : List GError :=
  [⟨"e1", some ⟨some 400, [("X-A", "1")]⟩⟩,
   ⟨"e2", some ⟨some 404, [("X-B", "2")]⟩⟩]

theorem default_error_handler_spec_witness :
    (defaultErrorHandler wErrors).status = 404
    ∧ "X-A" ∈ (defaultErrorHandler wErrors).headers.map Prod.fst
    ∧ "X-B" ∈ (defaultErrorHandler wErrors).headers.map Prod.fst
    ∧ "Content-Type" ∈ (defaultErrorHandler wErrors).headers.map Prod.fst :=
  have h := default_error_handler_spec wErrors (by decide)
  ⟨by rw [h.2.1 (by decide)]; rfl,
    h.2.2.2.1 ⟨"e1", some ⟨some 400, [("X-A", "1")]⟩⟩ (by decide)
      ⟨some 400, [("X-A", "1")]⟩ rfl ("X-A", "1") (by decide),
    h.2.2.2.1 ⟨"e2", some ⟨some 404, [("X-B", "2")]⟩⟩ (by decide)
      ⟨some 404, [("X-B", "2")]⟩ rfl ("X-B", "2") (by decide),
    h.2.2.1⟩

theorem resolveVars_go_no_name (coerce : VarDef → Json → Except String Json)
    (url : String) (params : List (String × String)) (body : Json)
    (name : String) (hpick : pickParam name url params body = none) :
    ∀ (vds : List VarDef) (acc vars : List (String × Json)),
      lookupKV acc name = none →
      vds.foldlM
        (fun (acc : List (String × Json)) vd =>
          (parseVariable coerce vd (pickParam vd.name url params body)).map
            (fun value =>
              match value with
              | none => acc
              | some v => assignKV acc vd.name v))
        acc = Except.ok vars →
      lookupKV vars name = none := by
  intro vds
  induction vds with
  | nil =>
    intro acc vars hacc hok
    rw [List.foldlM_nil] at hok
    cases hok
    exact hacc
  | cons vd rest ih =>
    intro acc vars hacc hok
    rw [List.foldlM_cons] at hok
    cases hpv : parseVariable coerce vd (pickParam vd.name url params body) with
    | error msg =>
      rw [hpv] at hok
      simp only [Except.map, bind, Except.bind] at hok
      exact Except.noConfusion hok
    | ok value =>
      rw [hpv] at hok
      simp only [Except.map, bind, Except.bind] at hok
      cases value with
      | none => exact ih acc vars hacc hok
      | some v =>
        by_cases hn : vd.name = name
        · exfalso
          rw [hn, hpick] at hpv
          simp [parseVariable] at hpv
        · have hacc' : lookupKV (assignKV acc vd.name v) name = none := by
            rw [lookupKV_assignKV_ne acc v (fun hh => hn hh.symm)]
            exact hacc
          exact ih _ vars hacc' hok

/-- C4: `pickParam` resolves a named variable from the first of: (1) the
path params, (2) the query string — one occurrence gives that single scalar,
several give the ordered value list — (3) a same-named key of the parsed
JSON body; and a name present in none of the three is left out of the
resolved variable set entirely, never forced to null. -/
theorem pickParam_precedence_and_omission (name url : String)
    (params : List (String × String)) (body : Json) :
    (∀ v, lookupKV params name = some v →
      pickParam name url params body = some (.str v))
    ∧ (lookupKV params name = none →
        ∀ v, getAllParams (queryStringOf url) name = [v] →
          pickParam name url params body = some (.str v))
    ∧ (lookupKV params name = none →
        ∀ v₁ v₂ vs, getAllParams (queryStringOf url) name = v₁ :: v₂ :: vs →
          pickParam name url params body =
            some (.arr ((v₁ :: v₂ :: vs).map .str)))
    ∧ (lookupKV params name = none →
        getAllParams (queryStringOf url) name = [] →
        bodyHasOwn body name = true →
        pickParam name url params body = bodyGet body name)
    ∧ (lookupKV params name = none →
        getAllParams (queryStringOf url) name = [] →
        bodyHasOwn body name = false →
        pickParam name url params body = none
        ∧ ∀ (coerce : VarDef → Json → Except String Json)
            (vds : List VarDef) (vars : List (String × Json)),
            resolveVariables coerce vds url params body = .ok vars →
            lookupKV vars name = none) := by
  refine ⟨?_, ?_, ?_, ?_, ?_⟩
  · intro v hv
    simp [pickParam, hv]
  · intro hp v hq
    simp [pickParam, hp, hq]
  · intro hp v₁ v₂ vs hq
    simp [pickParam, hp, hq]
  · intro hp hq hb
    simp [pickParam, hp, hq, hb]
  · intro hp hq hb
    have hpick : pickParam name url params body = none := by
      simp [pickParam, hp, hq, hb]
    refine ⟨hpick, ?_⟩
    intro coerce vds vars hok
    unfold resolveVariables at hok
    cases hgo : vds.foldlM
        (fun (acc : List (String × Json)) vd =>
          (parseVariable coerce vd (pickParam vd.name url params body)).map
            (fun value =>
              match value with
              | none => acc
              | some v => assignKV acc vd.name v))
        ([] : List (String × Json)) with
    | error msg => rw [hgo] at hok; cases hok
    | ok vars2 =>
      rw [hgo] at hok
      injection hok with hv
      subst hv
      exact resolveVars_go_no_name coerce url params body name hpick vds []
        vars2 rfl hgo

theorem pickParam_precedence_and_omission_witness :
    pickParam "a" "/u" [("a", "7")] (Json.obj [("a", .num 9)]) =
      some (.str "7")
    ∧ pickParam "a" "/u?a=1" [] (Json.obj []) = some (.str "1")
    ∧ pickParam "a" "/u?a=1&a=2" [] (Json.obj []) =
        some (.arr [.str "1", .str "2"])
    ∧ pickParam "a" "/u" [] (Json.obj [("a", .num 5)]) = some (.num 5)
    ∧ pickParam "a" "/u" [] (Json.obj [("b", .num 5)]) = none
    ∧ lookupKV [("b", Json.num 5)] "a" = none :=
  have h1 := (pickParam_precedence_and_omission "a" "/u" [("a", "7")]
    (Json.obj [("a", .num 9)])).1 "7" rfl
  have h2 := (pickParam_precedence_and_omission "a" "/u?a=1" []
    (Json.obj [])).2.1 rfl "1" (by decide)
  have h3 := (pickParam_precedence_and_omission "a" "/u?a=1&a=2" []
    (Json.obj [])).2.2.1 rfl "1" "2" [] (by decide)
  have h4 := (pickParam_precedence_and_omission "a" "/u" []
    (Json.obj [("a", .num 5)])).2.2.2.1 rfl (by decide) rfl
  have h5 := (pickParam_precedence_and_omission "a" "/u" []
    (Json.obj [("b", .num 5)])).2.2.2.2 rfl (by decide) rfl
  ⟨h1, h2, h3, by rw [h4]; rfl, h5.1,
    h5.2 (fun _ v => .ok v) [⟨"b", .named "String"⟩] [("b", .num 5)] rfl⟩

/-- C10: a present but empty body text is not malformed JSON: the handler
keeps the empty body object — behaving exactly as if no body stream were
present — so body-sourced variables are simply not provided; the 400
invalid-JSON error arises precisely when the body text is non-empty and
fails to parse, and then the handler answers through the error policy. -/
theorem empty_body_not_malformed (jsonParse : String → Option Json)
    (s name url : String) (params : List (String × String)) :
    parseBody jsonParse (some "") = .ok (.obj [])
    ∧ (parseBody jsonParse (some s) = .error invalidJsonError ↔
        (s ≠ "" ∧ jsonParse s = none))
    ∧ (lookupKV params name = none →
        getAllParams (queryStringOf url) name = [] →
        pickParam name url params (.obj []) = none)
    ∧ (∀ (coerce : VarDef → Json → Except String Json)
        (execute : List (String × Json) → Except GError ExecResult)
        (errHandler : List GError → Resp) (responseStatus : Nat)
        (fieldName : String) (info : OperationInfo) (url2 : String)
        (params2 : List (String × String)),
        useHandler jsonParse coerce execute errHandler responseStatus
            fieldName info ⟨url2, params2, some ""⟩
          = useHandler jsonParse coerce execute errHandler responseStatus
              fieldName info ⟨url2, params2, none⟩)
    ∧ (s ≠ "" → jsonParse s = none →
        ∀ (coerce : VarDef → Json → Except String Json)
          (execute : List (String × Json) → Except GError ExecResult)
          (errHandler : List GError → Resp) (responseStatus : Nat)
          (fieldName : String) (info : OperationInfo) (url2 : String)
          (params2 : List (String × String)),
          useHandler jsonParse coerce execute errHandler responseStatus
              fieldName info ⟨url2, params2, some s⟩
            = errHandler [invalidJsonError]) := by
  refine ⟨rfl, ?_, ?_, ?_, ?_⟩
  · by_cases hs : s = ""
    · subst hs
      simp [parseBody, invalidJsonError]
    · cases hp : jsonParse s with
      | none => simp [parseBody, hs, hp]
      | some v => simp [parseBody, hs, hp]
  · intro hp hq
    simp [pickParam, hp, hq, bodyHasOwn, lookupKV]
  · intro coerce execute errHandler responseStatus fieldName info url2 params2
    rfl
  · intro hs hp coerce execute errHandler responseStatus fieldName info url2
      params2
    simp [useHandler, parseBody, hs, hp]

theorem empty_body_not_malformed_witness :
    parseBody (fun _ => none) (some "") = .ok (.obj [])
    ∧ parseBody (fun _ => none) (some "x") = .error invalidJsonError
    ∧ pickParam "a" "/u" [] (.obj []) = none
    ∧ useHandler (fun _ => none) (fun _ v => .ok v)
        (fun _ => .ok ⟨none, none⟩) defaultErrorHandler 200 "f"
        ⟨.query, none, "f", []⟩ ⟨"/u", [], some "x"⟩
      = defaultErrorHandler [invalidJsonError] :=
  have h := empty_body_not_malformed (fun _ => none) "x" "a" "/u" []
  ⟨h.1,
    h.2.1.mpr ⟨by decide, rfl⟩,
    h.2.2.1 rfl (by decide),
    h.2.2.2.2 (by decide) rfl (fun _ v => .ok v)
      (fun _ => .ok ⟨none, none⟩) defaultErrorHandler 200 "f"
      ⟨.query, none, "f", []⟩ "/u" []⟩

/-- C8: when body parsing, variable resolution and execution all succeed,
a result with no field errors is answered with *only* the selected root
field's data (`result.data[fieldName]`, not the whole result envelope) at
the route's configured status, and a result carrying field errors is handed
to the error-handling policy instead. -/
theorem respond_with_field_data (jsonParse : String → Option Json)
    (coerce : VarDef → Json → Except String Json)
    (execute : List (String × Json) → Except GError ExecResult)
    (errHandler : List GError → Resp) (responseStatus : Nat)
    (fieldName : String) (info : OperationInfo) (req : Request)
    (body : Json) (vars : List (String × Json)) (result : ExecResult)
    (hb : parseBody jsonParse req.bodyText = .ok body)
    (hv : resolveVariables coerce info.vars req.url req.params body = .ok vars)
    (he : execute vars = .ok result) :
    (result.errors = none →
      useHandler jsonParse coerce execute errHandler responseStatus fieldName
          info req
        = { status := responseStatus, headers := respJsonHeaders,
            body :=
              (result.data.bind (fun d => lookupKV d fieldName)).getD .null })
    ∧ (∀ errs, result.errors = some errs →
        useHandler jsonParse coerce execute errHandler responseStatus
            fieldName info req
          = errHandler errs) := by
  constructor
  · intro hno
    simp [useHandler, hb, hv, he, hno]
  · intro errs herrs
    simp [useHandler, hb, hv, he, herrs]

theorem respond_with_field_data_witness :
    useHandler (fun _ => none) (fun _ v => .ok v)
        (fun _ => .ok ⟨some [("f", .str "data")], none⟩) defaultErrorHandler
        201 "f" ⟨.query, none, "f", []⟩ ⟨"/u", [], none⟩
      = { status := 201, headers := respJsonHeaders, body := .str "data" }
    ∧ useHandler (fun _ => none) (fun _ v => .ok v)
        (fun _ => .ok ⟨none, some [⟨"boom", none⟩]⟩) defaultErrorHandler
        201 "f" ⟨.query, none, "f", []⟩ ⟨"/u", [], none⟩
      = defaultErrorHandler [⟨"boom", none⟩] :=
  have h1 := respond_with_field_data (fun _ => none) (fun _ v => .ok v)
    (fun _ => .ok ⟨some [("f", .str "data")], none⟩) defaultErrorHandler 201
    "f" ⟨.query, none, "f", []⟩ ⟨"/u", [], none⟩ (.obj []) []
    ⟨some [("f", .str "data")], none⟩ rfl rfl rfl
  have h2 := respond_with_field_data (fun _ => none) (fun _ v => .ok v)
    (fun _ => .ok ⟨none, some [⟨"boom", none⟩]⟩) defaultErrorHandler 201
    "f" ⟨.query, none, "f", []⟩ ⟨"/u", [], none⟩ (.obj []) []
    ⟨none, some [⟨"boom", none⟩]⟩ rfl rfl rfl
  ⟨by rw [h1.1 rfl]; rfl, h2.2 [⟨"boom", none⟩] rfl⟩

/-- The spec-side reading of "the return type denotes a single object
(possibly non-null-wrapped, not a list)": a bare or non-null-wrapped name of
an object type. -/
def denotesSingleObject (schema : GSchema) : GType → Bool
  | .named n => isObjectNamed schema (.named n)
  | .nonNull (.named n) => isObjectNamed schema (.named n)
  | _ => false

theorem isSingle_eq (schema : GSchema) (t : GType) :
    (isObjectNamed schema t ||
      (match t with
       | .nonNull u => isObjectNamed schema u
       | _ => false)) = denotesSingleObject schema t := by
  cases t with
  | named n => simp [denotesSingleObject, isObjectNamed]
  | nonNull u => cases u <;> simp [denotesSingleObject, isObjectNamed]
  | list u => simp [denotesSingleObject, isObjectNamed]

theorem string_append_empty (s : String) : s ++ "" = s := by
  cases s with
  | mk data =>
    show String.mk (data ++ []) = String.mk data
    rw [List.append_nil]

/-- C5: with no override entry, a query field's route is GET at status 200,
its path carrying the `/:id` suffix exactly when the field's return type
denotes a single (possibly non-null-wrapped, non-list) object type and the
field has an argument literally named `id`; a mutation field's route is POST
at the bare normalized path with status 200 and never an automatic `/:id`. -/
theorem default_route_derivation (schema : GSchema)
    (routes : List (String × RouteOverride))
    (queryTypeName mutationTypeName fieldName : String) (field : GField)
    (hq : lookupKV routes (queryTypeName ++ "." ++ fieldName) = none)
    (hm : lookupKV routes (mutationTypeName ++ "." ++ fieldName) = none) :
    createQueryRouteDescriptor schema routes queryTypeName fieldName field
      = { method := .GET,
          path :=
            if denotesSingleObject schema field.type
                && field.args.any (fun arg => arg.name = "id") then
              "/" ++ convertName fieldName ++ "/:id"
            else "/" ++ convertName fieldName,
          responseStatus := 200 }
    ∧ ((createQueryRouteDescriptor schema routes queryTypeName fieldName
          field).path = "/" ++ convertName fieldName ++ "/:id"
        ↔ (denotesSingleObject schema field.type = true
            ∧ field.args.any (fun arg => arg.name = "id") = true))
    ∧ createMutationRouteDescriptor routes mutationTypeName fieldName
        = { method := .POST, path := "/" ++ convertName fieldName,
            responseStatus := 200 } := by
  have hne : ("/" ++ convertName fieldName : String)
      ≠ "/" ++ convertName fieldName ++ "/:id" := by
    intro he
    have hlen := congrArg String.length he
    rw [String.length_append ("/" ++ convertName fieldName) "/:id"] at hlen
    have h4 : ("/:id" : String).length = 4 := rfl
    omega
  have hroute : createQueryRouteDescriptor schema routes queryTypeName
      fieldName field
      = { method := .GET,
          path :=
            if denotesSingleObject schema field.type
                && field.args.any (fun arg => arg.name = "id") then
              "/" ++ convertName fieldName ++ "/:id"
            else "/" ++ convertName fieldName,
          responseStatus := 200 } := by
    rw [show createQueryRouteDescriptor schema routes queryTypeName fieldName
        field
        = { method := .GET,
            path :=
              getPath fieldName
                ((isObjectNamed schema field.type ||
                  (match field.type with
                   | .nonNull t => isObjectNamed schema t
                   | _ => false))
                  && field.args.any (fun arg => arg.name = "id")),
            responseStatus := 200 } by
      simp [createQueryRouteDescriptor, hq]]
    rw [isSingle_eq schema field.type]
    unfold getPath
    by_cases hcond : (denotesSingleObject schema field.type
        && field.args.any (fun arg => arg.name = "id")) = true
    · rw [hcond]
      simp
    · rw [Bool.not_eq_true] at hcond
      rw [hcond]
      simp [string_append_empty]
  refine ⟨hroute, ?_, ?_⟩
  · rw [hroute]
    by_cases hcond : (denotesSingleObject schema field.type
        && field.args.any (fun arg => arg.name = "id")) = true
    · rw [if_pos hcond]
      simp only [Bool.and_eq_true] at hcond
      simp [hcond]
    · rw [if_neg hcond]
      rw [Bool.not_eq_true, Bool.and_eq_false_iff] at hcond
      constructor
      · intro hp
        exact absurd hp hne
      · rintro ⟨h1, h2⟩
        rcases hcond with hc | hc
        · rw [h1] at hc; cases hc
        · rw [h2] at hc; cases hc
  · simp [createMutationRouteDescriptor, hm, getPath, string_append_empty]

/-- The schema of the spec's route-derivation scenario: `Query.getUserById`
returns a single `User` and takes an `id` argument. -/
def wSchema : GSchema :=
  [("Query",
    ⟨none, .objectT
      [⟨"getUserById", .named "User", none,
        [⟨"id", .nonNull (.named "ID"), none⟩]⟩]⟩),
   ("User", ⟨none, .objectT []⟩),
   ("ID", ⟨none, .scalarT none⟩)]

/-- The `getUserById` field of `wSchema`. -/
def wField : GField :=
  ⟨"getUserById", .named "User", none, [⟨"id", .nonNull (.named "ID"), none⟩]⟩

theorem default_route_derivation_witness :
    createQueryRouteDescriptor wSchema [] "Query" "getUserById" wField
      = { method := .GET, path := "/get-user-by-id/:id",
          responseStatus := 200 }
    ∧ createMutationRouteDescriptor [] "Mutation" "createUser"
      = { method := .POST, path := "/create-user", responseStatus := 200 } :=
  have h := default_route_derivation wSchema [] "Query" "Mutation"
    "getUserById" wField rfl rfl
  have h2 := default_route_derivation wSchema [] "Query" "Mutation"
    "createUser" wField rfl rfl
  ⟨by rw [h.1]; rfl, by rw [h2.2.2]; rfl⟩

theorem buildFields_fold (schema : GSchema) (opts : Opts) :
    ∀ (fields : List GField) (req : List String)
      (props : List (String × Json)),
      (∀ f ∈ fields, lookupKV props f.name = none) →
      (fields.map (fun f => f.name)).Nodup →
      fields.foldl (buildFieldStep schema opts) (req, props)
        = (req ++ (fields.filter (fun f => isNonNullT f.type)).map
              (fun f => f.name),
           props ++ fields.map
              (fun f => (f.name, fieldProperty schema opts f))) := by
  intro fields
  induction fields with
  | nil => intro req props _ _; simp
  | cons f fields ih =>
    intro req props habs hnd
    rw [List.foldl_cons]
    have hstep : buildFieldStep schema opts (req, props) f
        = ((if isNonNullT f.type then req ++ [f.name] else req),
           props ++ [(f.name, fieldProperty schema opts f)]) := by
      rw [show buildFieldStep schema opts (req, props) f
          = ((if isNonNullT f.type then req ++ [f.name] else req),
             assignKV props f.name (fieldProperty schema opts f)) from rfl]
      rw [assignKV_of_lookup_none _ (habs f (List.mem_cons_self f fields))]
    rw [hstep]
    have hnd2 : (f.name :: fields.map (fun g => g.name)).Nodup := by
      rw [← List.map_cons]
      exact hnd
    have hns : f.name ∉ fields.map (fun g => g.name) :=
      (List.nodup_cons.mp hnd2).1
    have habs' : ∀ g ∈ fields,
        lookupKV (props ++ [(f.name, fieldProperty schema opts f)]) g.name
          = none := by
      intro g hg
      rw [lookupKV_append, habs g (List.mem_cons_of_mem f hg)]
      have hne : f.name ≠ g.name := by
        intro he
        exact hns (he ▸ List.mem_map_of_mem (fun x => x.name) hg)
      simp [lookupKV_cons, hne, lookupKV]
    have hnd' : (fields.map (fun g => g.name)).Nodup :=
      (List.nodup_cons.mp hnd2).2
    rw [ih _ _ habs' hnd']
    by_cases hnn : isNonNullT f.type = true
    · simp [hnn, List.filter_cons]
    · rw [Bool.not_eq_true] at hnn
      simp [hnn, List.filter_cons]

/-- C7: the component built for a named object/input type lists exactly the
type's declared fields as `properties`, in declaration order, and its
`required` list (emitted only when non-empty) is exactly the names of the
non-null-typed fields in declaration order: a declared field's name is
required iff its type is non-null. -/
theorem component_fields_required (schema : GSchema) (opts : Opts)
    (fields : List GField) (description : Option String)
    (hnd : (fields.map (fun f => f.name)).Nodup) :
    (buildSchemaObjectFromType schema opts fields description).lookup
        "properties"
      = some (.obj (fields.map
          (fun f => (f.name, fieldProperty schema opts f))))
    ∧ Json.objKeys
        (((buildSchemaObjectFromType schema opts fields description).lookup
          "properties").getD .null)
        = fields.map (fun f => f.name)
    ∧ (buildSchemaObjectFromType schema opts fields description).lookup
        "required"
      = (if ((fields.filter (fun f => isNonNullT f.type)).map
              (fun f => f.name)) = [] then none
         else some (.arr (((fields.filter (fun f => isNonNullT f.type)).map
            (fun f => f.name)).map .str)))
    ∧ ∀ f ∈ fields,
        (f.name ∈ (fields.filter (fun g => isNonNullT g.type)).map
            (fun g => g.name)
          ↔ isNonNullT f.type = true) := by
  have hfold := buildFields_fold schema opts fields [] []
    (fun f _ => rfl) hnd
  have hbuild : buildSchemaObjectFromType schema opts fields description
      = .obj
        ([("type", .str "object")]
          ++ (if ((fields.filter (fun f => isNonNullT f.type)).map
                (fun f => f.name)).isEmpty then []
              else [("required",
                .arr ((((fields.filter (fun f => isNonNullT f.type)).map
                  (fun f => f.name))).map .str))])
          ++ [("properties", .obj (fields.map
              (fun f => (f.name, fieldProperty schema opts f))))]
          ++ (match truthyStr description with
              | some d => [("description", .str d)]
              | none => [])) := by
    unfold buildSchemaObjectFromType
    rw [hfold]
    simp
  refine ⟨?_, ?_, ?_, ?_⟩
  · rw [hbuild]
    by_cases hemp : ((fields.filter (fun f => isNonNullT f.type)).map
        (fun f => f.name)).isEmpty = true
    · simp [hemp, Json.lookup, lookupKV_cons]
    · simp only [hemp, Bool.false_eq_true, if_false, Bool.not_eq_true]
      simp [Json.lookup, lookupKV_cons]
  · rw [hbuild]
    by_cases hemp : ((fields.filter (fun f => isNonNullT f.type)).map
        (fun f => f.name)).isEmpty = true
    · simp [hemp, Json.lookup, lookupKV_cons, Json.objKeys]
    · simp only [hemp, Bool.false_eq_true, if_false, Bool.not_eq_true]
      simp [Json.lookup, lookupKV_cons, Json.objKeys]
  · rw [hbuild]
    by_cases hemp : ((fields.filter (fun f => isNonNullT f.type)).map
        (fun f => f.name)).isEmpty = true
    · rw [List.isEmpty_iff] at hemp
      cases htr : truthyStr description with
      | none => simp [hemp, htr, Json.lookup, lookupKV_cons, lookupKV]
      | some d =>
        simp [hemp, htr, Json.lookup, lookupKV_cons, lookupKV,
          show ("description" : String) ≠ "required" from by decide]
    · have hne : ((fields.filter (fun f => isNonNullT f.type)).map
          (fun f => f.name)) ≠ [] := by
        intro hc
        rw [← List.isEmpty_iff] at hc
        exact hemp hc
      simp only [List.isEmpty_eq_true] at hemp
      simp [hemp, hne, Json.lookup, lookupKV_cons]
  · intro f hf
    constructor
    · intro hmem
      rcases List.mem_map.mp hmem with ⟨g, hg, hge⟩
      rcases List.mem_filter.mp hg with ⟨hgmem, hgnn⟩
      have : g = f := List.inj_on_of_nodup_map hnd hgmem hf hge
      rw [← this]
      exact hgnn
    · intro hnn
      have hmem : f ∈ fields.filter (fun g => isNonNullT g.type) := by
        rw [List.mem_filter]
        exact ⟨hf, hnn⟩
      exact List.mem_map_of_mem (fun g => g.name) hmem

theorem lookup_of_mem_nodup {β : Type} (l : List (String × β)) (k : String)
    (v : β) (hnd : (l.map Prod.fst).Nodup) (hm : (k, v) ∈ l) :
    lookupKV l k = some v := by
  induction l with
  | nil => exact absurd hm (List.not_mem_nil _)
  | cons a l ih =>
    have hnd2 := hnd
    rw [List.map_cons] at hnd2
    have hc := List.nodup_cons.mp hnd2
    rcases List.mem_cons.mp hm with heq | htail
    · rw [← heq]
      simp [lookupKV_cons]
    · have hne : a.1 ≠ k := by
        intro he
        exact hc.1 (he ▸ List.mem_map_of_mem Prod.fst htail)
      cases a with
      | mk a1 a2 =>
        rw [lookupKV_cons, if_neg hne]
        exact ih hc.2 htail

theorem componentFor_key (schema : GSchema) (opts : Opts)
    (entry : String × TypeDef) (kv : String × Json)
    (h : componentFor schema opts entry = some kv) : kv.1 = entry.1 := by
  unfold componentFor at h
  cases hb : entry.2.body with
  | objectT fields =>
    rw [hb] at h
    by_cases hi : isIntrospectionName entry.1 = true
    · simp [hi] at h
    · simp only [hi, Bool.false_eq_true, if_false] at h
      cases h
      rfl
  | inputObjectT fields =>
    rw [hb] at h
    by_cases hi : isIntrospectionName entry.1 = true
    · simp [hi] at h
    · simp only [hi, Bool.false_eq_true, if_false] at h
      cases h
      rfl
  | enumT values =>
    rw [hb] at h
    by_cases hi : isIntrospectionName entry.1 = true
    · simp [hi] at h
    · simp only [hi, Bool.false_eq_true, if_false] at h
      cases hc : lookupKV opts.customScalars entry.1 with
      | none => rw [hc] at h; simp at h
      | some sc =>
        rw [hc] at h
        simp only [Option.map_some'] at h
        cases h
        rfl
  | scalarT ext =>
    rw [hb] at h
    by_cases hi : isIntrospectionName entry.1 = true
    · simp [hi] at h
    · simp only [hi, Bool.false_eq_true, if_false] at h
      cases hc : lookupKV opts.customScalars entry.1 with
      | none => rw [hc] at h; simp at h
      | some sc =>
        rw [hc] at h
        simp only [Option.map_some'] at h
        cases h
        rfl

theorem buildComponents_eq_filterMap (opts : Opts) (full : GSchema) :
    ∀ (l : List (String × TypeDef)) (comps : List (String × Json)),
      (∀ p ∈ l, lookupKV comps p.1 = none) →
      ((l.map Prod.fst).Nodup) →
      l.foldl (componentStep full opts) comps
      = comps ++ l.filterMap (componentFor full opts) := by
  intro l
  induction l with
  | nil => intro comps _ _; simp
  | cons a l ih =>
    intro comps habs hnd
    have hnd2 : (a.1 :: l.map Prod.fst).Nodup := by
      rw [← List.map_cons]
      exact hnd
    have hc := List.nodup_cons.mp hnd2
    rw [List.foldl_cons, List.filterMap_cons]
    cases hcf : componentFor full opts a with
    | none =>
      rw [show componentStep full opts comps a = comps by
        simp [componentStep, hcf]]
      rw [ih comps (fun p hp => habs p (List.mem_cons_of_mem a hp)) hc.2]
    | some kv =>
      have hkey : kv.1 = a.1 := componentFor_key full opts a kv hcf
      have hassign : componentStep full opts comps a = comps ++ [kv] := by
        rw [show componentStep full opts comps a = assignKV comps kv.1 kv.2
          from by simp [componentStep, hcf]]
        rw [hkey, assignKV_of_lookup_none _ (habs a (List.mem_cons_self a l))]
        cases kv with
        | mk k1 k2 =>
          simp at hkey
          rw [hkey]
      rw [hassign]
      have habs2 : ∀ p ∈ l, lookupKV (comps ++ [kv]) p.1 = none := by
        intro p hp
        rw [lookupKV_append, habs p (List.mem_cons_of_mem a hp)]
        have hne : kv.1 ≠ p.1 := by
          rw [hkey]
          intro he
          exact hc.1 (he ▸ List.mem_map_of_mem Prod.fst hp)
        cases kv with
        | mk k1 k2 =>
          simp at hne
          simp [lookupKV_cons, hne, lookupKV]
      rw [ih (comps ++ [kv]) habs2 hc.2, List.append_assoc]
      rfl

theorem filterMap_keys_absent (opts : Opts) (full : GSchema) :
    ∀ (l : List (String × TypeDef)) (n : String), n ∉ l.map Prod.fst →
      (l.filterMap (componentFor full opts)).countP (fun p => p.1 == n) = 0
      ∧ lookupKV (l.filterMap (componentFor full opts)) n = none := by
  intro l
  induction l with
  | nil => intro n _; simp [lookupKV]
  | cons a l ih =>
    intro n hn
    rw [List.map_cons, List.mem_cons] at hn
    push_neg at hn
    rw [List.filterMap_cons]
    cases hcf : componentFor full opts a with
    | none => exact ih n hn.2
    | some kv =>
      have hkey : kv.1 = a.1 := componentFor_key full opts a kv hcf
      have hne : kv.1 ≠ n := by
        rw [hkey]
        intro he
        exact hn.1 he.symm
      constructor
      · rw [List.countP_cons]
        have hb : (kv.1 == n) = false := by
          simp [hne]
        simp [hb, (ih n hn.2).1]
      · cases kv with
        | mk k1 k2 =>
          simp at hne
          rw [lookupKV_cons, if_neg hne]
          exact (ih n hn.2).2

theorem filterMap_lookup_count (opts : Opts) (full : GSchema) :
    ∀ (l : List (String × TypeDef)) (n : String) (td : TypeDef) (v : Json),
      ((l.map Prod.fst).Nodup) → (n, td) ∈ l →
      componentFor full opts (n, td) = some (n, v) →
      lookupKV (l.filterMap (componentFor full opts)) n = some v
      ∧ (l.filterMap (componentFor full opts)).countP (fun p => p.1 == n)
          = 1 := by
  intro l
  induction l with
  | nil => intro n td v _ hm; exact absurd hm (List.not_mem_nil _)
  | cons a l ih =>
    intro n td v hnd hm hcf
    have hnd2 : (a.1 :: l.map Prod.fst).Nodup := by
      rw [← List.map_cons]
      exact hnd
    have hc := List.nodup_cons.mp hnd2
    rw [List.filterMap_cons]
    rcases List.mem_cons.mp hm with heq | htail
    · rw [← heq, hcf]
      have hn : n ∉ l.map Prod.fst := by
        have ha1 : a.1 = n := by rw [← heq]
        rw [← ha1]
        exact hc.1
      constructor
      · simp [lookupKV_cons]
      · rw [List.countP_cons]
        simp [(filterMap_keys_absent opts full l n hn).1]
    · have hnn : a.1 ≠ n := by
        intro he
        exact hc.1 (he ▸ List.mem_map_of_mem Prod.fst htail)
      cases hcfa : componentFor full opts a with
      | none => exact ih n td v hc.2 htail hcf
      | some kv =>
        have hkey : kv.1 = a.1 := componentFor_key full opts a kv hcfa
        have hkvn : kv.1 ≠ n := by rw [hkey]; exact hnn
        have hrest := ih n td v hc.2 htail hcf
        constructor
        · cases kv with
          | mk k1 k2 =>
            simp at hkvn
            rw [lookupKV_cons, if_neg hkvn]
            exact hrest.1
        · rw [List.countP_cons]
          have hb : (kv.1 == n) = false := by simp [hkvn]
          simp [hb, hrest.2]

/-- C1: for a cyclic pair of named object types A→B→A, resolving a field
whose type is the (possibly non-null-wrapped) named object type always
yields a `$ref` to that type's named component — never an inline recursive
expansion (`resolveFieldType` never descends into a named type's fields, so
the build is total even on cyclic graphs) — and the document-build pass
assigns each of the two type names exactly one component, so the two
`$ref`s are valid mutual references. -/
theorem cyclic_types_components (schema : List (String × TypeDef))
    (opts : Opts)
    (A B : String) (tdA tdB : TypeDef) (fieldsA fieldsB : List GField)
    (fA fB : GField)
    (hnd : (schema.map Prod.fst).Nodup)
    (hA : (A, tdA) ∈ schema) (hAbody : tdA.body = .objectT fieldsA)
    (hAni : isIntrospectionName A = false)
    (hB : (B, tdB) ∈ schema) (hBbody : tdB.body = .objectT fieldsB)
    (hBni : isIntrospectionName B = false)
    (_hfA : fA ∈ fieldsA)
    (hfAty : fA.type = .named B ∨ fA.type = .nonNull (.named B))
    (_hfB : fB ∈ fieldsB)
    (hfBty : fB.type = .named A ∨ fB.type = .nonNull (.named A)) :
    resolveField schema opts fA = .obj [("$ref", .str (mapToRef B))]
    ∧ resolveField schema opts fB = .obj [("$ref", .str (mapToRef A))]
    ∧ lookupKV (buildComponentSchemas schema opts) A
        = some (buildSchemaObjectFromType schema opts fieldsA tdA.description)
    ∧ lookupKV (buildComponentSchemas schema opts) B
        = some (buildSchemaObjectFromType schema opts fieldsB tdB.description)
    ∧ (buildComponentSchemas schema opts).countP (fun p => p.1 == A) = 1
    ∧ (buildComponentSchemas schema opts).countP (fun p => p.1 == B) = 1 := by
  have hlookA : lookupType schema A = some tdA :=
    lookup_of_mem_nodup schema A tdA hnd hA
  have hlookB : lookupType schema B = some tdB :=
    lookup_of_mem_nodup schema B tdB hnd hB
  have hrefnB : resolveFieldType schema opts (.named B)
      = .obj [("$ref", .str (mapToRef B))] := by
    by_cases hcs : (lookupKV opts.customScalars B).isSome = true
    · simp [resolveFieldType, hcs]
    · simp [resolveFieldType, hcs, hlookB, hBbody]
  have hrefnA : resolveFieldType schema opts (.named A)
      = .obj [("$ref", .str (mapToRef A))] := by
    by_cases hcs : (lookupKV opts.customScalars A).isSome = true
    · simp [resolveFieldType, hcs]
    · simp [resolveFieldType, hcs, hlookA, hAbody]
  have hrefA : resolveField schema opts fA
      = .obj [("$ref", .str (mapToRef B))] := by
    unfold resolveField
    rcases hfAty with hty | hty
    · rw [hty]; exact hrefnB
    · rw [hty]
      rw [show resolveFieldType schema opts (.nonNull (.named B))
        = resolveFieldType schema opts (.named B) from rfl]
      exact hrefnB
  have hrefB : resolveField schema opts fB
      = .obj [("$ref", .str (mapToRef A))] := by
    unfold resolveField
    rcases hfBty with hty | hty
    · rw [hty]; exact hrefnA
    · rw [hty]
      rw [show resolveFieldType schema opts (.nonNull (.named A))
        = resolveFieldType schema opts (.named A) from rfl]
      exact hrefnA
  have hcfA : componentFor schema opts (A, tdA)
      = some (A, buildSchemaObjectFromType schema opts fieldsA
          tdA.description) := by
    simp [componentFor, hAbody, hAni]
  have hcfB : componentFor schema opts (B, tdB)
      = some (B, buildSchemaObjectFromType schema opts fieldsB
          tdB.description) := by
    simp [componentFor, hBbody, hBni]
  have hbuild : buildComponentSchemas schema opts
      = schema.filterMap (componentFor schema opts) := by
    unfold buildComponentSchemas
    rw [buildComponents_eq_filterMap opts schema schema []
      (fun p _ => rfl) hnd]
    rfl
  have hAc := filterMap_lookup_count opts schema schema A tdA
    (buildSchemaObjectFromType schema opts fieldsA tdA.description)
    hnd hA hcfA
  have hBc := filterMap_lookup_count opts schema schema B tdB
    (buildSchemaObjectFromType schema opts fieldsB tdB.description)
    hnd hB hcfB
  refine ⟨hrefA, hrefB, ?_, ?_, ?_, ?_⟩
  · rw [hbuild]; exact hAc.1
  · rw [hbuild]; exact hBc.1
  · rw [hbuild]; exact hAc.2
  · rw [hbuild]; exact hBc.2

/-- Options with no custom scalars, no enum table and no example directive
configured. -/
def noExampleOpts : Opts := ⟨[], [], fun _ => none⟩

/-- A cyclic pair of object types: `A.b : B` and `B.a : A!`. -/
def wCyclicSchema : GSchema :=
  [("A", ⟨none, .objectT [⟨"b", .named "B", none, []⟩]⟩),
   ("B", ⟨none, .objectT [⟨"a", .nonNull (.named "A"), none, []⟩]⟩)]

theorem cyclic_types_components_witness :
    resolveField wCyclicSchema noExampleOpts ⟨"b", .named "B", none, []⟩
      = .obj [("$ref", .str "#/components/schemas/B")]
    ∧ resolveField wCyclicSchema noExampleOpts
        ⟨"a", .nonNull (.named "A"), none, []⟩
      = .obj [("$ref", .str "#/components/schemas/A")]
    ∧ lookupKV (buildComponentSchemas wCyclicSchema noExampleOpts) "A"
        = some (buildSchemaObjectFromType wCyclicSchema noExampleOpts
            [⟨"b", .named "B", none, []⟩] none)
    ∧ (buildComponentSchemas wCyclicSchema noExampleOpts).countP
        (fun p => p.1 == "A") = 1
    ∧ (buildComponentSchemas wCyclicSchema noExampleOpts).countP
        (fun p => p.1 == "B") = 1 :=
  have h := cyclic_types_components wCyclicSchema noExampleOpts "A" "B"
    ⟨none, .objectT [⟨"b", .named "B", none, []⟩]⟩
    ⟨none, .objectT [⟨"a", .nonNull (.named "A"), none, []⟩]⟩
    [⟨"b", .named "B", none, []⟩] [⟨"a", .nonNull (.named "A"), none, []⟩]
    ⟨"b", .named "B", none, []⟩ ⟨"a", .nonNull (.named "A"), none, []⟩
    (by decide) (List.mem_cons_self _ _) rfl (by decide)
    (List.mem_cons_of_mem _ (List.mem_cons_self _ _)) rfl (by decide)
    (List.mem_cons_self _ _) (Or.inl rfl)
    (List.mem_cons_self _ _) (Or.inr rfl)
  ⟨h.1, h.2.1, h.2.2.1, h.2.2.2.2.1, h.2.2.2.2.2⟩

/-- Two declared fields, `id : ID!` required and `name : String` optional. -/
def wFields : List GField :=
  [⟨"id", .nonNull (.named "ID"), none, []⟩,
   ⟨"name", .named "String", none, []⟩]

theorem component_fields_required_witness :
    Json.objKeys
        (((buildSchemaObjectFromType wSchema noExampleOpts wFields
          none).lookup "properties").getD .null) = ["id", "name"]
    ∧ (buildSchemaObjectFromType wSchema noExampleOpts wFields none).lookup
        "required" = some (.arr [.str "id"]) :=
  have h := component_fields_required wSchema noExampleOpts wFields none
    (by decide)
  ⟨by rw [h.2.1]; rfl, by rw [h.2.2.1]; rfl⟩

theorem bodyFields_fold (schema : GSchema) (opts : Opts) (opKind : OpKind)
    (fieldName : String) :
    ∀ (vds : List VarDef) (req : List String)
      (props : List (String × Json)),
      (∀ vd ∈ vds, lookupKV props vd.name = none) →
      ((vds.map (fun vd => vd.name)).Nodup) →
      vds.foldl (bodyFieldStep schema opts opKind fieldName) (req, props)
        = (req ++ (vds.filter (fun vd => isNonNullT vd.type)).map
              (fun vd => vd.name),
           props ++ vds.map
              (fun vd => (vd.name,
                bodyVarSchema schema opts opKind fieldName vd))) := by
  intro vds
  induction vds with
  | nil => intro req props _ _; simp
  | cons vd vds ih =>
    intro req props habs hnd
    rw [List.foldl_cons]
    have hstep : bodyFieldStep schema opts opKind fieldName (req, props) vd
        = ((if isNonNullT vd.type then req ++ [vd.name] else req),
           props ++ [(vd.name, bodyVarSchema schema opts opKind fieldName vd)]) := by
      rw [show bodyFieldStep schema opts opKind fieldName (req, props) vd
          = ((if isNonNullT vd.type then req ++ [vd.name] else req),
             assignKV props vd.name
               (bodyVarSchema schema opts opKind fieldName vd)) from rfl]
      rw [assignKV_of_lookup_none _ (habs vd (List.mem_cons_self vd vds))]
    rw [hstep]
    have hnd2 : (vd.name :: vds.map (fun g => g.name)).Nodup := by
      rw [← List.map_cons]
      exact hnd
    have hns : vd.name ∉ vds.map (fun g => g.name) :=
      (List.nodup_cons.mp hnd2).1
    have habs2 : ∀ g ∈ vds,
        lookupKV (props ++ [(vd.name,
          bodyVarSchema schema opts opKind fieldName vd)]) g.name = none := by
      intro g hg
      rw [lookupKV_append, habs g (List.mem_cons_of_mem vd hg)]
      have hne : vd.name ≠ g.name := by
        intro he
        exact hns (he ▸ List.mem_map_of_mem (fun x => x.name) hg)
      simp [lookupKV_cons, hne, lookupKV]
    rw [ih _ _ habs2 (List.nodup_cons.mp hnd2).2]
    by_cases hnn : isNonNullT vd.type = true
    · simp [hnn, List.filter_cons]
    · rw [Bool.not_eq_true] at hnn
      simp [hnn, List.filter_cons]

theorem routeBuckets_fold (schema : GSchema) (opts : Opts) (field : GField)
    (path : String) (opKind : OpKind) (fieldName : String) :
    ∀ (vds : List VarDef) (pb qb : Bucket),
      (∀ vd ∈ vds, lookupKV pb.properties vd.name = none
        ∧ lookupKV qb.properties vd.name = none) →
      ((vds.map (fun vd => vd.name)).Nodup) →
      vds.foldl (routeSchemaStep schema opts field path opKind fieldName)
        (pb, qb)
      = ({ properties := pb.properties
            ++ (vds.filter (fun vd => isInPath path vd.name)).map
                (fun vd => (vd.name,
                  routeVarSchema schema opts field opKind fieldName vd)),
           required := pb.required
            ++ (vds.filter (fun vd =>
                  isInPath path vd.name && isNonNullT vd.type)).map
                (fun vd => vd.name) },
         { properties := qb.properties
            ++ (vds.filter (fun vd => !(isInPath path vd.name))).map
                (fun vd => (vd.name,
                  routeVarSchema schema opts field opKind fieldName vd)),
           required := qb.required
            ++ (vds.filter (fun vd =>
                  !(isInPath path vd.name) && isNonNullT vd.type)).map
                (fun vd => vd.name) }) := by
  intro vds
  induction vds with
  | nil => intro pb qb _ _; simp
  | cons vd vds ih =>
    intro pb qb habs hnd
    rw [List.foldl_cons]
    have hnd2 : (vd.name :: vds.map (fun g => g.name)).Nodup := by
      rw [← List.map_cons]
      exact hnd
    have hns : vd.name ∉ vds.map (fun g => g.name) :=
      (List.nodup_cons.mp hnd2).1
    have hnd' := (List.nodup_cons.mp hnd2).2
    have hne : ∀ g ∈ vds, vd.name ≠ g.name := by
      intro g hg he
      exact hns (he ▸ List.mem_map_of_mem (fun x => x.name) hg)
    by_cases hin : isInPath path vd.name = true
    · have hstep : routeSchemaStep schema opts field path opKind fieldName
          (pb, qb) vd
          = ({ properties := pb.properties
                ++ [(vd.name,
                  routeVarSchema schema opts field opKind fieldName vd)],
               required :=
                 if isNonNullT vd.type then pb.required ++ [vd.name]
                 else pb.required }, qb) := by
        rw [show routeSchemaStep schema opts field path opKind fieldName
            (pb, qb) vd
            = if isInPath path vd.name then
                ({ properties := assignKV pb.properties vd.name
                    (routeVarSchema schema opts field opKind fieldName vd),
                   required :=
                     if isNonNullT vd.type then pb.required ++ [vd.name]
                     else pb.required }, qb)
              else
                (pb,
                 { properties := assignKV qb.properties vd.name
                    (routeVarSchema schema opts field opKind fieldName vd),
                   required :=
                     if isNonNullT vd.type then qb.required ++ [vd.name]
                     else qb.required }) from rfl]
        rw [if_pos hin,
          assignKV_of_lookup_none _ (habs vd (List.mem_cons_self vd vds)).1]
      rw [hstep]
      have habs2 : ∀ g ∈ vds,
          lookupKV (pb.properties ++ [(vd.name,
            routeVarSchema schema opts field opKind fieldName vd)]) g.name
              = none
          ∧ lookupKV qb.properties g.name = none := by
        intro g hg
        refine ⟨?_, (habs g (List.mem_cons_of_mem vd hg)).2⟩
        rw [lookupKV_append, (habs g (List.mem_cons_of_mem vd hg)).1]
        simp [lookupKV_cons, hne g hg, lookupKV]
      rw [ih _ _ habs2 hnd']
      by_cases hnn : isNonNullT vd.type = true
      · simp [hin, hnn, List.filter_cons]
      · rw [Bool.not_eq_true] at hnn
        simp [hin, hnn, List.filter_cons]
    · rw [Bool.not_eq_true] at hin
      have hstep : routeSchemaStep schema opts field path opKind fieldName
          (pb, qb) vd
          = (pb,
             { properties := qb.properties
                ++ [(vd.name,
                  routeVarSchema schema opts field opKind fieldName vd)],
               required :=
                 if isNonNullT vd.type then qb.required ++ [vd.name]
                 else qb.required }) := by
        rw [show routeSchemaStep schema opts field path opKind fieldName
            (pb, qb) vd
            = if isInPath path vd.name then
                ({ properties := assignKV pb.properties vd.name
                    (routeVarSchema schema opts field opKind fieldName vd),
                   required :=
                     if isNonNullT vd.type then pb.required ++ [vd.name]
                     else pb.required }, qb)
              else
                (pb,
                 { properties := assignKV qb.properties vd.name
                    (routeVarSchema schema opts field opKind fieldName vd),
                   required :=
                     if isNonNullT vd.type then qb.required ++ [vd.name]
                     else qb.required }) from rfl]
        rw [if_neg (by simp [hin]),
          assignKV_of_lookup_none _ (habs vd (List.mem_cons_self vd vds)).2]
      rw [hstep]
      have habs2 : ∀ g ∈ vds,
          lookupKV pb.properties g.name = none
          ∧ lookupKV (qb.properties ++ [(vd.name,
              routeVarSchema schema opts field opKind fieldName vd)]) g.name
              = none := by
        intro g hg
        refine ⟨(habs g (List.mem_cons_of_mem vd hg)).1, ?_⟩
        rw [lookupKV_append, (habs g (List.mem_cons_of_mem vd hg)).2]
        simp [lookupKV_cons, hne g hg, lookupKV]
      rw [ih _ _ habs2 hnd']
      by_cases hnn : isNonNullT vd.type = true
      · simp [hin, hnn, List.filter_cons]
      · rw [Bool.not_eq_true] at hnn
        simp [hin, hnn, List.filter_cons]

/-- C6 (as the code has it): at setup time a variable goes to the path
bucket when its name occurs as a placeholder in the path template and to the
query bucket *otherwise, whatever the method*; body-bearing methods
(POST/PUT/PATCH) additionally get a request-body schema listing **all** the
operation's variables (path ones included), other methods none; in every
bucket the required flag mirrors the variable's non-null type. -/
theorem route_schema_classification (schema : GSchema) (opts : Opts)
    (field : GField) (method : HTTPMethod) (path : String)
    (info : OperationInfo) (responseStatus : Nat)
    (hnd : (info.vars.map (fun vd => vd.name)).Nodup) :
    (getRouteSchemas schema opts field method path info
        responseStatus).params.properties
      = (info.vars.filter (fun vd => isInPath path vd.name)).map
          (fun vd => (vd.name,
            routeVarSchema schema opts field info.opKind info.fieldName vd))
    ∧ (getRouteSchemas schema opts field method path info
        responseStatus).query.properties
      = (info.vars.filter (fun vd => !(isInPath path vd.name))).map
          (fun vd => (vd.name,
            routeVarSchema schema opts field info.opKind info.fieldName vd))
    ∧ (getRouteSchemas schema opts field method path info
        responseStatus).params.required
      = (info.vars.filter (fun vd =>
          isInPath path vd.name && isNonNullT vd.type)).map
          (fun vd => vd.name)
    ∧ (getRouteSchemas schema opts field method path info
        responseStatus).query.required
      = (info.vars.filter (fun vd =>
          !(isInPath path vd.name) && isNonNullT vd.type)).map
          (fun vd => vd.name)
    ∧ (useRequestBody method = false →
        (getRouteSchemas schema opts field method path info
          responseStatus).json = none)
    ∧ (useRequestBody method = true →
        (getRouteSchemas schema opts field method path info
          responseStatus).json
        = some (.obj
            ([("type", .str "object"),
              ("properties", .obj (info.vars.map
                (fun vd => (vd.name,
                  bodyVarSchema schema opts info.opKind info.fieldName vd))))]
              ++ (if ((info.vars.filter (fun vd => isNonNullT vd.type)).map
                    (fun vd => vd.name)).isEmpty then []
                  else [("required",
                    .arr (((info.vars.filter (fun vd => isNonNullT vd.type)).map
                      (fun vd => vd.name)).map .str))])))) := by
  have hfold := routeBuckets_fold schema opts field path info.opKind
    info.fieldName info.vars ⟨[], []⟩ ⟨[], []⟩
    (fun vd _ => ⟨rfl, rfl⟩) hnd
  have hbody : resolveRequestBody schema opts info.vars info.opKind
      info.fieldName
      = .obj
          ([("type", .str "object"),
            ("properties", .obj (info.vars.map
              (fun vd => (vd.name,
                bodyVarSchema schema opts info.opKind info.fieldName vd))))]
            ++ (if ((info.vars.filter (fun vd => isNonNullT vd.type)).map
                  (fun vd => vd.name)).isEmpty then []
                else [("required",
                  .arr (((info.vars.filter (fun vd => isNonNullT vd.type)).map
                    (fun vd => vd.name)).map .str))])) := by
    unfold resolveRequestBody
    rw [bodyFields_fold schema opts info.opKind info.fieldName info.vars
      [] [] (fun vd _ => rfl) hnd]
    simp
  refine ⟨?_, ?_, ?_, ?_, ?_, ?_⟩
  · show ((info.vars.foldl (routeSchemaStep schema opts field path
        info.opKind info.fieldName) (⟨[], []⟩, ⟨[], []⟩)).1).properties = _
    rw [hfold]
    rfl
  · show ((info.vars.foldl (routeSchemaStep schema opts field path
        info.opKind info.fieldName) (⟨[], []⟩, ⟨[], []⟩)).2).properties = _
    rw [hfold]
    rfl
  · show ((info.vars.foldl (routeSchemaStep schema opts field path
        info.opKind info.fieldName) (⟨[], []⟩, ⟨[], []⟩)).1).required = _
    rw [hfold]
    rfl
  · show ((info.vars.foldl (routeSchemaStep schema opts field path
        info.opKind info.fieldName) (⟨[], []⟩, ⟨[], []⟩)).2).required = _
    rw [hfold]
    rfl
  · intro hm
    show (if useRequestBody method then
        some (resolveRequestBody schema opts info.vars info.opKind
          info.fieldName)
      else none) = none
    rw [hm]
    rfl
  · intro hm
    show (if useRequestBody method then
        some (resolveRequestBody schema opts info.vars info.opKind
          info.fieldName)
      else none) = _
    rw [hm, if_pos rfl, hbody]

/-- The root mutation field of the classification scenario. -/
def wField6 : GField := ⟨"m", .named "String", none, []⟩

/-- A mutation operation with a path variable `x : String!` (the route is
`/m/:x`) and a plain variable `y : String`. -/
def wInfo6 : OperationInfo :=
  ⟨.mutation, none, "m",
    [⟨"x", .nonNull (.named "String")⟩, ⟨"y", .named "String"⟩]⟩

/-- The claim's exclusive classification fails on the code: on the POST
route `/m/:x`, the non-path variable `y` — which the claim classifies as a
body parameter only — also appears in the query-parameter schema, and the
path variable `x` also appears in the request-body schema. -/
theorem route_schema_not_exclusive_counterexample :
    useRequestBody .POST = true
    ∧ isInPath "/m/:x" "y" = false
    ∧ ((getRouteSchemas [] noExampleOpts wField6 .POST "/m/:x" wInfo6
        200).query.properties).map Prod.fst = ["y"]
    ∧ Json.objKeys
        ((((getRouteSchemas [] noExampleOpts wField6 .POST "/m/:x" wInfo6
          200).json.getD .null).lookup "properties").getD .null)
        = ["x", "y"]
    ∧ ((getRouteSchemas [] noExampleOpts wField6 .POST "/m/:x" wInfo6
        200).params.properties).map Prod.fst = ["x"] := by
  refine ⟨rfl, by decide, by decide, by decide, by decide⟩

theorem route_schema_classification_witness :
    (getRouteSchemas [] noExampleOpts wField6 .POST "/m/:x" wInfo6
        200).params.properties
      = [("x", routeVarSchema [] noExampleOpts wField6 .mutation "m"
          ⟨"x", .nonNull (.named "String")⟩)]
    ∧ (getRouteSchemas [] noExampleOpts wField6 .POST "/m/:x" wInfo6
        200).params.required = ["x"]
    ∧ (getRouteSchemas [] noExampleOpts wField6 .POST "/m/:x" wInfo6
        200).query.required = []
    ∧ (getRouteSchemas [] noExampleOpts wField6 .GET "/m/:x" wInfo6
        200).json = none :=
  have h := route_schema_classification [] noExampleOpts wField6 .POST
    "/m/:x" wInfo6 200 (by decide)
  have hg := route_schema_classification [] noExampleOpts wField6 .GET
    "/m/:x" wInfo6 200 (by decide)
  ⟨by rw [h.1]; rfl, by rw [h.2.2.1]; rfl, by rw [h.2.2.2.1]; rfl,
    hg.2.2.2.2.1 rfl⟩
